import Mathlib

/-!
# PeleLMeX: thermodynamic closure, divU assembly and closed-chamber correction

Shallow embedding of `Source/PeleLMeX_Eos.cpp`.

Conventions of the embedding
* `amrex::Real` is embedded as the rationals: the arithmetic is exact and a
  division by zero yields zero.
* A cell is an `IntVect` (i, j, k); the valid region of a level is the finite
  set of cells of its BoxArray; a MultiFab is a map from cells to values and a
  `Vector<MultiFab>` is a map from the level to such a map.
* Kernels that live outside this translation unit (`getGammaInv`,
  `compute_divu`) are parameters.
-/

namespace amrex

/-- Exact rational stand-in for amrex::Real. -/
abbrev Real := ℚ

/-- Cell index (i, j, k). -/
abbrev IntVect := ℤ × ℤ × ℤ

/-- Multi-component array view: cell and component to value. -/
abbrev Array4 := IntVect → ℕ → Real

/-- One-component field on the cells of one level. -/
abbrev MultiFab := IntVect → Real

/-- The view `Array4<Real const>(a, n)`: the same data with component origin moved to n. -/
def Array4.comp (a : Array4) (n : ℕ) : Array4 :=
  fun c m => a c (n + m)

/-- The call `amrex::ParallelFor(mf, kernel)`: every valid cell of the field is assigned by the kernel. -/
def ParallelFor (valid : Finset IntVect) (kernel : IntVect → Real) (mf : MultiFab) : MultiFab :=
  fun c => if c ∈ valid then kernel c else mf c

/-- The call `mf.plus(val, 0, 1)`: adds val on the valid cells. -/
def MultiFab.plus (mf : MultiFab) (val : Real) (valid : Finset IntVect) : MultiFab :=
  fun c => if c ∈ valid then mf c + val else mf c

/-- Index box with inclusive corners. -/
structure Box where
  smallEnd : IntVect
  bigEnd : IntVect

/-- Membership of a cell in a box. -/
def Box.contains (bx : Box) (c : IntVect) : Bool :=
  decide (bx.smallEnd.1 ≤ c.1 ∧ c.1 ≤ bx.bigEnd.1)
    && decide (bx.smallEnd.2.1 ≤ c.2.1 ∧ c.2.1 ≤ bx.bigEnd.2.1)
    && decide (bx.smallEnd.2.2 ≤ c.2.2 ∧ c.2.2 ≤ bx.bigEnd.2.2)

/-- The call `amrex::ParallelFor(bx, kernel)` with a kernel that assigns its own cell. -/
def ParallelForBox (bx : Box) (kernel : IntVect → Real) (mf : MultiFab) : MultiFab :=
  fun c => if bx.contains c = true then kernel c else mf c

/-- Classification of a box by the embedded-boundary flags. -/
inductive FabType
  | covered
  | regular
  | singlevalued
  | multivalued
  | undefined
  deriving DecidableEq

end amrex

namespace PeleLMeX

/-- Compile-time configuration: preprocessor switches and the state channel layout. -/
structure Build where
  AMREX_SPACEDIM : ℕ
  AMREX_USE_EB : Bool
  AMREX_USE_ASSERTION : Bool
  PELE_USE_EFIELD : Bool
  DENSITY : ℕ
  FIRSTSPEC : ℕ
  NUM_SPECIES : ℕ
  RHOH : ℕ
  TEMP : ℕ
  RHORT : ℕ

/-- Per-level, per-time data container. -/
@[ext]
structure LevelData where
  state : amrex.Array4
  divu : amrex.MultiFab

/-- The members of the PeleLM object used by the routines of this file. -/
@[ext]
structure PeleLM where
  finest_level : ℕ
  grids : ℕ → Finset amrex.IntVect
  cellVolume : ℕ → amrex.IntVect → amrex.Real
  isUncovered : ℕ → amrex.IntVect → Bool
  m_uncoveredVol : amrex.Real
  m_pOld : amrex.Real
  m_pNew : amrex.Real
  m_dt : amrex.Real
  m_dp0dt : amrex.Real
  m_dpdtFactor : amrex.Real
  m_domainUmacFlux : ℕ → amrex.Real
  m_do_react : ℤ
  m_skipInstantRR : ℤ
  m_nGrowdivu : ℕ
  m_leveldata_old : ℕ → LevelData
  m_leveldata_new : ℕ → LevelData

/-- Modelled from the spec: MFSum is defined outside the shown sources; the
global sum is "(sum over all uncovered cells, volume-weighted)" over the whole
hierarchy. -/
def MFSum (p : PeleLM) (mf : ℕ → amrex.MultiFab) : amrex.Real :=
  ∑ lev ∈ Finset.range (p.finest_level + 1),
    ∑ c ∈ (p.grids lev).filter (fun c => p.isUncovered lev c = true),
      p.cellVolume lev c * mf lev c

/-- Signature of the external kernel getGammaInv(i, j, k, rhoY, T). -/
abbrev GammaInvKernel := amrex.IntVect → amrex.Array4 → amrex.Array4 → amrex.Real

/-- The half-time theta field built by the first level loop of adjustPandDivU. -/
def ThetaHalft (bd : Build) (getGammaInv : GammaInvKernel) (p : PeleLM) : ℕ → amrex.MultiFab :=
  fun lev =>
    if lev ≤ p.finest_level then
      amrex.ParallelFor (p.grids lev)
        (fun c =>
          let gammaInv_o := getGammaInv c ((p.m_leveldata_old lev).state.comp bd.FIRSTSPEC)
            ((p.m_leveldata_old lev).state.comp bd.TEMP)
          let gammaInv_n := getGammaInv c ((p.m_leveldata_new lev).state.comp bd.FIRSTSPEC)
            ((p.m_leveldata_new lev).state.comp bd.TEMP)
          0.5 * (gammaInv_o / p.m_pOld + gammaInv_n / p.m_pNew))
        (fun _ => 0)
    else fun _ => 0

/-- Local `Sbar`: global sum of mac_divu over the uncovered volume. -/
def Sbar (p : PeleLM) (mac_divu : ℕ → amrex.MultiFab) : amrex.Real :=
  MFSum p mac_divu / p.m_uncoveredVol

/-- Local `Thetabar`: global sum of the half-time theta over the uncovered volume. -/
def Thetabar (bd : Build) (getGammaInv : GammaInvKernel) (p : PeleLM) : amrex.Real :=
  MFSum p (ThetaHalft bd getGammaInv p) / p.m_uncoveredVol

/-- The expansion of AMREX_D_TERM over the boundary flux accumulator. -/
def umacFluxBalance (bd : Build) (p : PeleLM) : amrex.Real :=
  match bd.AMREX_SPACEDIM with
  | 1 => p.m_domainUmacFlux 0 + p.m_domainUmacFlux 1
  | 2 => p.m_domainUmacFlux 0 + p.m_domainUmacFlux 1
          + p.m_domainUmacFlux 2 + p.m_domainUmacFlux 3
  | _ => p.m_domainUmacFlux 0 + p.m_domainUmacFlux 1
          + p.m_domainUmacFlux 2 + p.m_domainUmacFlux 3
          + p.m_domainUmacFlux 4 + p.m_domainUmacFlux 5

/-- Local `divu_vol`: boundary flux balance over the uncovered volume. -/
def divu_vol (bd : Build) (p : PeleLM) : amrex.Real :=
  umacFluxBalance bd p / p.m_uncoveredVol

/-- ThetaHalft after the "Adjust" loop (delta_theta). -/
def deltaTheta (bd : Build) (getGammaInv : GammaInvKernel) (p : PeleLM) : ℕ → amrex.MultiFab :=
  fun lev =>
    if lev ≤ p.finest_level then
      (ThetaHalft bd getGammaInv p lev).plus (-(Thetabar bd getGammaInv p)) (p.grids lev)
    else ThetaHalft bd getGammaInv p lev

/-- The mac_divu field after the "Adjust" loop (delta_S). -/
def deltaS (p : PeleLM) (mac_divu : ℕ → amrex.MultiFab) : ℕ → amrex.MultiFab :=
  fun lev =>
    if lev ≤ p.finest_level then
      (mac_divu lev).plus (-(Sbar p mac_divu)) (p.grids lev)
    else mac_divu lev

/-- What adjustPandDivU leaves behind: return value, object, and mac_divu. -/
structure AdjustResult where
  ret : amrex.Real
  pele : PeleLM
  mac_divu : ℕ → amrex.MultiFab

/-- The routine `PeleLM::adjustPandDivU`. -/
def adjustPandDivU (bd : Build) (getGammaInv : GammaInvKernel) (p : PeleLM)
    (mac_divu : ℕ → amrex.MultiFab) : AdjustResult :=
  let Sbar := Sbar p mac_divu
  let Thetabar := Thetabar bd getGammaInv p
  let theta := deltaTheta bd getGammaInv p
  let uma := deltaS p mac_divu
  let divu_vol := divu_vol bd p
  let p1 : PeleLM :=
    { p with
      m_pNew := p.m_pOld + p.m_dt * (Sbar - divu_vol) / Thetabar
      m_dp0dt := (Sbar - divu_vol) / Thetabar }
  let uma1 : ℕ → amrex.MultiFab := fun lev =>
    if lev ≤ p.finest_level then
      amrex.ParallelFor (p.grids lev)
        (fun c => uma lev c -
          (theta lev c * Sbar / Thetabar - divu_vol * (1 + theta lev c / Thetabar)))
        (uma lev)
    else uma lev
  { ret := Sbar, pele := p1, mac_divu := uma1 }


/-! ## TimeStamp and level data access -/

/-- Modelled from the spec: the TimeStamp enum is declared outside the shown
sources; it is "a two-valued tag {Old, New}" and "any other value is a
programming error". -/
inductive TimeStamp
  | AmrOldTime
  | AmrNewTime
  | other (tag : ℕ)
  deriving DecidableEq

/-- Ways in which a routine stops without a result. -/
inductive Halt
  | assertFailed
  | noLevelData
  deriving DecidableEq

/-- The statement `AMREX_ASSERT(cond)`: a check only in a build with assertions
(AMREX_DEBUG or AMREX_USE_ASSERTION, the switch `AMREX_USE_ASSERTION` of the
build), where execution stops when the condition is false; in any other build
the statement is empty. -/
def AMREX_ASSERT (bd : Build) (cond : Bool) : Except Halt Unit :=
  if cond then .ok () else if bd.AMREX_USE_ASSERTION then .error .assertFailed else .ok ()

/-- The condition `a_time == AmrOldTime || a_time == AmrNewTime`. -/
def isOldOrNew (a_time : TimeStamp) : Bool :=
  a_time == .AmrOldTime || a_time == .AmrNewTime

/-- Modelled from the spec: getLevelDataPtr is defined outside the shown
sources; the TimeStamp selects "which of two time-synchronized copies of
per-level state to operate on"; another tag selects neither copy. -/
def getLevelDataPtr (p : PeleLM) (lev : ℕ) (a_time : TimeStamp) : Except Halt LevelData :=
  match a_time with
  | .AmrOldTime => .ok (p.m_leveldata_old lev)
  | .AmrNewTime => .ok (p.m_leveldata_new lev)
  | .other _ => .error .noLevelData

/-- Write-back through the pointer returned by getLevelDataPtr. -/
def setLevelData (p : PeleLM) (lev : ℕ) (a_time : TimeStamp) (ld : LevelData) : PeleLM :=
  match a_time with
  | .AmrOldTime => { p with m_leveldata_old := Function.update p.m_leveldata_old lev ld }
  | .AmrNewTime => { p with m_leveldata_new := Function.update p.m_leveldata_new lev ld }
  | .other _ => p

/-! ## setRhoToSumRhoY -/

/-- The kernel body of setRhoToSumRhoY on the channels of one cell:
DENSITY is zeroed, then the species channels are added one by one. -/
def sumRhoYCell (bd : Build) (s : ℕ → amrex.Real) : ℕ → amrex.Real :=
  (List.range bd.NUM_SPECIES).foldl
    (fun a n => Function.update a bd.DENSITY (a bd.DENSITY + a (bd.FIRSTSPEC + n)))
    (Function.update s bd.DENSITY 0)

/-- The routine `PeleLM::setRhoToSumRhoY(lev, a_time)`. -/
def setRhoToSumRhoY (bd : Build) (p : PeleLM) (lev : ℕ) (a_time : TimeStamp) :
    Except Halt PeleLM := do
  AMREX_ASSERT bd (isOldOrNew a_time)
  let ldata_p ← getLevelDataPtr p lev a_time
  let sma : amrex.Array4 := fun c =>
    if c ∈ p.grids lev then sumRhoYCell bd (ldata_p.state c) else ldata_p.state c
  pure (setLevelData p lev a_time { ldata_p with state := sma })

/-! ## calc_dPdt -/

/-- The routine `PeleLM::calc_dPdt(lev, a_time, a_dPdt)`; the result is the
field a_dPdt after the call. -/
def calc_dPdt (bd : Build) (p : PeleLM) (lev : ℕ) (a_time : TimeStamp)
    (a_dPdt : amrex.MultiFab) : Except Halt amrex.MultiFab := do
  let ldata_p ← getLevelDataPtr p lev a_time
  let sa := ldata_p.state
  let p_amb := p.m_pNew
  pure (amrex.ParallelFor (p.grids lev)
    (fun c => (sa c bd.RHORT - p_amb) / (p.m_dt * sa c bd.RHORT) * p.m_dpdtFactor)
    a_dPdt)

/-! ## calcDivU -/

/-- The arrays handed to compute_divu for one box. -/
structure DivUArgs where
  rhoY : amrex.Array4
  T : amrex.Array4
  SpecD : amrex.Array4
  Fourier : amrex.Array4
  DiffDiff : amrex.Array4
  r : amrex.Array4
  extRhoY : amrex.Array4
  extRhoH : amrex.Array4
  use_react : ℤ

/-- Signature of the external kernel compute_divu: the value it stores in divu(i, j, k). -/
abbrev DivUKernel := amrex.IntVect → DivUArgs → amrex.Real

/-- The statement a box kernel of calcDivU executes in one cell. -/
inductive DivUStmt
  | setZero
  | compute_divu
  deriving DecidableEq

/-- The value a statement stores in divu(i, j, k). -/
def DivUStmt.value (s : DivUStmt) (compute_divu : DivUKernel) (c : amrex.IntVect)
    (args : DivUArgs) : amrex.Real :=
  match s with
  | .setZero => 0
  | .compute_divu => compute_divu c args

/-- The three-way choice of box kernel in calcDivU: covered box, box containing
the embedded boundary, regular box (the only kernel without AMREX_USE_EB). -/
def calcDivU_boxKernel (bd : Build) (fabType : amrex.FabType)
    (flagIsCovered : amrex.IntVect → Bool) : amrex.IntVect → DivUStmt :=
  if bd.AMREX_USE_EB = true ∧ fabType = amrex.FabType.covered then
    fun _ => .setZero
  else if bd.AMREX_USE_EB = true ∧ fabType ≠ amrex.FabType.regular then
    fun c => if flagIsCovered c = true then .setZero else .compute_divu
  else
    fun _ => .compute_divu

/-- The body of the MFIter loop of calcDivU for one tile box: divu after the box kernel ran. -/
def calcDivU_box (bd : Build) (compute_divu : DivUKernel) (fabType : amrex.FabType)
    (flagIsCovered : amrex.IntVect → Bool) (bx : amrex.Box) (args : DivUArgs)
    (divu : amrex.MultiFab) : amrex.MultiFab :=
  amrex.ParallelForBox bx
    (fun c => (calcDivU_boxKernel bd fabType flagIsCovered c).value compute_divu c args)
    divu

/-- Calls calcDivU makes to its collaborators, in program order. -/
inductive Call
  | calcDiffusivity (a_time : TimeStamp)
  | computeDifferentialDiffusionTerms (a_time : TimeStamp) (is_init : ℤ)
  | defineRhoYdot (lev : ℕ)
  | copyI_R (lev : ℕ)
  | setValZero (lev : ℕ)
  | computeInstantaneousReactionRate (lev : ℕ) (a_time : TimeStamp)
  | computeInstantaneousReactionRateEF (lev : ℕ) (a_time : TimeStamp)
  | assembleDivU (lev : ℕ) (use_react : ℤ)
  | average_down (fine crse ratioLev : ℕ)
  | EB_average_down (fine crse ratioLev : ℕ)
  | fillpatch_divu (lev : ℕ) (nGrow : ℕ)
  deriving DecidableEq

/-- The value of `use_react` in calcDivU. -/
def use_react (p : PeleLM) : ℤ :=
  if p.m_do_react ≠ 0 ∧ p.m_skipInstantRR = 0 then 1 else 0

/-- The construction of RhoYdot on one level. -/
def calcDivU_RhoYdot (bd : Build) (p : PeleLM) (is_init : ℤ) (a_time : TimeStamp)
    (lev : ℕ) : List Call :=
  if p.m_do_react ≠ 0 ∧ p.m_skipInstantRR = 0 then
    if is_init ≠ 0 then
      if p.m_dt > 0 then [.defineRhoYdot lev, .copyI_R lev]
      else [.defineRhoYdot lev, .setValZero lev]
    else if bd.PELE_USE_EFIELD = true then
      [.defineRhoYdot lev, .computeInstantaneousReactionRateEF lev a_time]
    else
      [.defineRhoYdot lev, .computeInstantaneousReactionRate lev a_time]
  else []

/-- The loop `for (int lev = finest_level; lev > 0; --lev)` of calcDivU, started at lev. -/
def calcDivU_avgDown (bd : Build) : ℕ → List Call
  | 0 => []
  | lev + 1 =>
    (if bd.AMREX_USE_EB = true then Call.EB_average_down (lev + 1) lev lev
      else Call.average_down (lev + 1) lev lev) :: calcDivU_avgDown bd lev

/-- The routine `PeleLM::calcDivU` as the sequence of calls it makes; each
level of the assembly loop first fetches its level data with the tag. -/
def calcDivU (bd : Build) (p : PeleLM) (is_init computeDiff do_avgDown : ℤ)
    (a_time : TimeStamp) : Except Halt (List Call) := do
  AMREX_ASSERT bd (isOldOrNew a_time)
  let diff : List Call :=
    if computeDiff ≠ 0 then
      [.calcDiffusivity a_time, .computeDifferentialDiffusionTerms a_time is_init]
    else []
  let blocks ← (List.range (p.finest_level + 1)).mapM (fun lev => do
    let _ldata_p ← getLevelDataPtr p lev a_time
    pure (calcDivU_RhoYdot bd p is_init a_time lev ++ [Call.assembleDivU lev (use_react p)]))
  let assemble : List Call := blocks.flatten
  let avg : List Call :=
    if do_avgDown ≠ 0 then calcDivU_avgDown bd p.finest_level else []
  let fill : List Call :=
    (List.range (p.finest_level + 1)).map (fun lev => .fillpatch_divu lev p.m_nGrowdivu)
  pure (diff ++ assemble ++ avg ++ fill)


/-- The array a box of calcDivU passes to compute_divu as `r`. -/
inductive RSource
  | RhoYdot
  | stateFIRSTSPEC
  deriving DecidableEq

/-- The choice of `r`: RhoYdot when reactions take part, otherwise the dummy
species view of the state. -/
def calcDivU_r (p : PeleLM) : RSource :=
  if p.m_do_react ≠ 0 ∧ p.m_skipInstantRR = 0 then .RhoYdot else .stateFIRSTSPEC

/-! ## TimeStamp-taking setters -/

/-- The coarsening call of calcDivU for fine level lev: coarse level lev-1,
refinement ratio of level lev-1. -/
def coarseningStep (bd : Build) (lev : ℕ) : Call :=
  if bd.AMREX_USE_EB = true then Call.EB_average_down lev (lev - 1) (lev - 1)
  else Call.average_down lev (lev - 1) (lev - 1)

/-- Whether a call is a coarsening call. -/
def Call.isAverageDown : Call → Bool
  | .average_down _ _ _ => true
  | .EB_average_down _ _ _ => true
  | _ => false

/-! ## Fixtures -/

/-- Two-level synthetic closed chamber: one coarse cell hidden under the fine
level, uniform theta = 1, Sbar = 2, divu_vol = 1/2. -/
def chamber2 : PeleLM where
  finest_level := 1
  grids := fun lev => if lev = 0 then {(0, 0, 0), (1, 0, 0)} else {(2, 0, 0), (3, 0, 0)}
  cellVolume := fun lev _ => if lev = 0 then 1 else 1 / 2
  isUncovered := fun lev c => !(lev = 0 && c = (1, 0, 0))
  m_uncoveredVol := 2
  m_pOld := 1
  m_pNew := 1
  m_dt := 1 / 10
  m_dp0dt := 0
  m_dpdtFactor := 1
  m_domainUmacFlux := fun _ => 1 / 4
  m_do_react := 1
  m_skipInstantRR := 0
  m_nGrowdivu := 1
  m_leveldata_old := fun _ => ⟨fun _ _ => 0, fun _ => 0⟩
  m_leveldata_new := fun _ => ⟨fun _ _ => 0, fun _ => 0⟩

/-- Two-dimensional build with two species. -/
def build2d : Build :=
  { AMREX_SPACEDIM := 2, AMREX_USE_EB := true, AMREX_USE_ASSERTION := true,
    PELE_USE_EFIELD := false,
    DENSITY := 2, FIRSTSPEC := 3, NUM_SPECIES := 2, RHOH := 5, TEMP := 6, RHORT := 7 }

/-- A gammaInv kernel returning 1 in every cell. -/
def gammaInvOne : GammaInvKernel := fun _ _ _ => 1

/-- Input mac_divu on chamber2 with volume-weighted mean 2. -/
def macDivu2 : ℕ → amrex.MultiFab :=
  fun lev c =>
    if lev = 0 then (if c = (0, 0, 0) then 1 else 100) else (if c = (2, 0, 0) then 2 else 4)

/-- Single-level 8x8 grid of unit cells, none covered, zero boundary flux. -/
def grid8x8 (pOld dt : amrex.Real) : PeleLM where
  finest_level := 0
  grids := fun lev => if lev = 0 then Finset.Icc (0 : ℤ) 7 ×ˢ Finset.Icc (0 : ℤ) 7 ×ˢ {0} else ∅
  cellVolume := fun _ _ => 1
  isUncovered := fun _ _ => true
  m_uncoveredVol := 64
  m_pOld := pOld
  m_pNew := pOld
  m_dt := dt
  m_dp0dt := 0
  m_dpdtFactor := 1
  m_domainUmacFlux := fun _ => 0
  m_do_react := 0
  m_skipInstantRR := 0
  m_nGrowdivu := 1
  m_leveldata_old := fun _ => ⟨fun _ _ => 0, fun _ => 0⟩
  m_leveldata_new := fun _ => ⟨fun _ _ => 0, fun _ => 0⟩

/-- A gammaInv kernel returning the given constant in every cell. -/
def gammaInvConst (g : amrex.Real) : GammaInvKernel := fun _ _ _ => g

/-- Uniform field over the hierarchy. -/
def uniformField (s : amrex.Real) : ℕ → amrex.MultiFab := fun _ _ => s

/-- The two-level chamber with channel n of every cell holding the value n,
at both times. -/
def channelCase : PeleLM :=
  { chamber2 with
    m_leveldata_old := fun _ => ⟨fun _ ch => (ch : amrex.Real), fun _ => 0⟩
    m_leveldata_new := fun _ => ⟨fun _ ch => (ch : amrex.Real), fun _ => 0⟩ }

/-- The 8x8 grid with thermodynamic pressure 101325 in every channel of the old
and new state, ambient pressure 100000, dt = 1/1000 and dpdt factor 1. -/
def dPdtCase : PeleLM :=
  { grid8x8 100000 (1 / 1000) with
    m_leveldata_old := fun _ => ⟨fun _ _ => 101325, fun _ => 0⟩
    m_leveldata_new := fun _ => ⟨fun _ _ => 101325, fun _ => 0⟩ }

/-- A 4x4 tile box. -/
def tileBox : amrex.Box := ⟨(0, 0, 0), (3, 3, 0)⟩

/-- Coverage flags: the cells with i = 0 are covered. -/
def leftColumnCovered : amrex.IntVect → Bool := fun c => decide (c.1 = 0)

/-- A compute_divu kernel returning 7 in every cell. -/
def divuSeven : DivUKernel := fun _ _ => 7

/-- Arrays of zeros with reactions switched on. -/
def zeroArgs : DivUArgs :=
  { rhoY := fun _ _ => 0, T := fun _ _ => 0, SpecD := fun _ _ => 0, Fourier := fun _ _ => 0,
    DiffDiff := fun _ _ => 0, r := fun _ _ => 0, extRhoY := fun _ _ => 0,
    extRhoH := fun _ _ => 0, use_react := 1 }


/-- The chamber fixture with a third level declared. -/
def chamber3 : PeleLM :=
  { chamber2 with finest_level := 2 }

/-! # Theorems -/

/-! ## Global sums -/

theorem MFSum_congr (p : PeleLM) (f g : ℕ → amrex.MultiFab)
    (h : ∀ lev, lev ≤ p.finest_level → ∀ c ∈ p.grids lev, f lev c = g lev c) :
    MFSum p f = MFSum p g := by
  unfold MFSum
  refine Finset.sum_congr rfl (fun lev hlev => Finset.sum_congr rfl (fun c hc => ?_))
  rw [h lev (Nat.lt_succ_iff.mp (Finset.mem_range.mp hlev)) c (Finset.mem_filter.mp hc).1]

theorem MFSum_add (p : PeleLM) (f g : ℕ → amrex.MultiFab) :
    MFSum p (fun lev c => f lev c + g lev c) = MFSum p f + MFSum p g := by
  unfold MFSum
  simp only [mul_add, Finset.sum_add_distrib]

theorem MFSum_smul (p : PeleLM) (k : amrex.Real) (f : ℕ → amrex.MultiFab) :
    MFSum p (fun lev c => k * f lev c) = k * MFSum p f := by
  unfold MFSum
  simp only [Finset.mul_sum]
  refine Finset.sum_congr rfl (fun lev _ => Finset.sum_congr rfl (fun c _ => ?_))
  ring

theorem MFSum_uniform (p : PeleLM) (k : amrex.Real) :
    MFSum p (fun _ _ => k) = k * MFSum p (fun _ _ => 1) := by
  rw [← MFSum_smul]
  simp

/-! ## Closed-chamber corrector: per-cell forms -/

theorem adjust_cell (bd : Build) (g : GammaInvKernel) (p : PeleLM)
    (mac_divu : ℕ → amrex.MultiFab) (lev : ℕ) (hlev : lev ≤ p.finest_level)
    (c : amrex.IntVect) (hc : c ∈ p.grids lev) :
    (adjustPandDivU bd g p mac_divu).mac_divu lev c =
      (mac_divu lev c - Sbar p mac_divu)
        - ((ThetaHalft bd g p lev c - Thetabar bd g p) * Sbar p mac_divu / Thetabar bd g p
            - divu_vol bd p
              * (1 + (ThetaHalft bd g p lev c - Thetabar bd g p) / Thetabar bd g p)) := by
  simp [adjustPandDivU, deltaTheta, deltaS, amrex.ParallelFor, amrex.MultiFab.plus, hlev, hc]
  ring

theorem adjust_cell_outside (bd : Build) (g : GammaInvKernel) (p : PeleLM)
    (mac_divu : ℕ → amrex.MultiFab) (lev : ℕ) (c : amrex.IntVect)
    (h : ¬ (lev ≤ p.finest_level ∧ c ∈ p.grids lev)) :
    (adjustPandDivU bd g p mac_divu).mac_divu lev c = mac_divu lev c := by
  by_cases hlev : lev ≤ p.finest_level
  · have hc : c ∉ p.grids lev := fun hc => h ⟨hlev, hc⟩
    simp [adjustPandDivU, deltaS, amrex.ParallelFor, amrex.MultiFab.plus, hlev, hc]
  · simp [adjustPandDivU, deltaS, hlev]

theorem deltaTheta_cell (bd : Build) (g : GammaInvKernel) (p : PeleLM)
    (lev : ℕ) (hlev : lev ≤ p.finest_level) (c : amrex.IntVect) (hc : c ∈ p.grids lev) :
    deltaTheta bd g p lev c = ThetaHalft bd g p lev c - Thetabar bd g p := by
  simp [deltaTheta, amrex.MultiFab.plus, hlev, hc]
  ring

theorem deltaS_cell (p : PeleLM) (mac_divu : ℕ → amrex.MultiFab)
    (lev : ℕ) (hlev : lev ≤ p.finest_level) (c : amrex.IntVect) (hc : c ∈ p.grids lev) :
    deltaS p mac_divu lev c = mac_divu lev c - Sbar p mac_divu := by
  simp [deltaS, amrex.MultiFab.plus, hlev, hc]
  ring

theorem adjust_cell_closed (bd : Build) (g : GammaInvKernel) (p : PeleLM)
    (mac_divu : ℕ → amrex.MultiFab) (hT : Thetabar bd g p ≠ 0)
    (lev : ℕ) (hlev : lev ≤ p.finest_level) (c : amrex.IntVect) (hc : c ∈ p.grids lev) :
    (adjustPandDivU bd g p mac_divu).mac_divu lev c =
      mac_divu lev c
        + (-((Sbar p mac_divu - divu_vol bd p) / Thetabar bd g p)) * ThetaHalft bd g p lev c := by
  rw [adjust_cell bd g p mac_divu lev hlev c hc]
  field_simp
  ring

/-- Total of the corrected field: the uncovered volume times divu_vol. -/
theorem adjust_MFSum (bd : Build) (g : GammaInvKernel) (p : PeleLM)
    (mac_divu : ℕ → amrex.MultiFab) (hvol : p.m_uncoveredVol ≠ 0)
    (hT : Thetabar bd g p ≠ 0) :
    MFSum p (adjustPandDivU bd g p mac_divu).mac_divu =
      divu_vol bd p * p.m_uncoveredVol := by
  rw [MFSum_congr p _ _ (fun lev hlev c hc => adjust_cell_closed bd g p mac_divu hT lev hlev c hc),
    MFSum_add, MFSum_smul]
  have hS : MFSum p mac_divu = Sbar p mac_divu * p.m_uncoveredVol := by
    unfold Sbar; field_simp
  have hTh : MFSum p (ThetaHalft bd g p) = Thetabar bd g p * p.m_uncoveredVol := by
    unfold Thetabar; field_simp
  rw [hS, hTh]
  field_simp
  ring


/-! ## Fixture evaluations -/

theorem chamber2_weights : MFSum chamber2 (fun _ _ => 1) = 2 := by
  simp +decide [MFSum, chamber2, Finset.sum_range_succ, Finset.filter_insert,
    Finset.filter_singleton]
  norm_num

theorem chamber2_Sbar : Sbar chamber2 macDivu2 = 2 := by
  simp +decide [Sbar, MFSum, chamber2, macDivu2, Finset.sum_range_succ, Finset.sum_filter,
    Finset.sum_insert]
  norm_num

theorem chamber2_theta (lev : ℕ) (hlev : lev ≤ 1) (c : amrex.IntVect)
    (hc : c ∈ chamber2.grids lev) : ThetaHalft build2d gammaInvOne chamber2 lev c = 1 := by
  have h1 : lev ≤ chamber2.finest_level := hlev
  simp only [ThetaHalft, amrex.ParallelFor, h1, hc, if_true, gammaInvOne]
  simp [chamber2]
  norm_num

theorem chamber2_Thetabar : Thetabar build2d gammaInvOne chamber2 = 1 := by
  unfold Thetabar
  rw [MFSum_congr chamber2 _ (fun _ _ => 1) (fun lev hlev c hc => chamber2_theta lev hlev c hc),
    chamber2_weights]
  simp [chamber2]

theorem chamber2_divu_vol : divu_vol build2d chamber2 = 1 / 2 := by
  simp [divu_vol, umacFluxBalance, build2d, chamber2]
  norm_num

theorem grid8x8_weights (pOld dt : amrex.Real) : MFSum (grid8x8 pOld dt) (fun _ _ => 1) = 64 := by
  simp [MFSum, grid8x8]

theorem grid8x8_theta (pOld dt g : amrex.Real) (hp : pOld ≠ 0) (lev : ℕ)
    (hlev : lev ≤ (grid8x8 pOld dt).finest_level) (c : amrex.IntVect)
    (hc : c ∈ (grid8x8 pOld dt).grids lev) :
    ThetaHalft build2d (gammaInvConst g) (grid8x8 pOld dt) lev c = g / pOld := by
  simp only [ThetaHalft, amrex.ParallelFor, hlev, hc, if_true, gammaInvConst]
  simp only [grid8x8]
  field_simp
  ring


/-! ## Closed-chamber corrector: claims -/

/-- C1: for every hierarchy with non-zero uncovered volume and non-zero Thetabar,
whatever the input mac_divu and the theta field are, the global sum of the
corrected mac_divu over the uncovered volume equals divu_vol; when the weights
add up to the uncovered volume this is the weighted mean of the corrected field. -/
theorem adjustPandDivU_mean_eq_divu_vol (bd : Build) (g : GammaInvKernel) (p : PeleLM)
    (mac_divu : ℕ → amrex.MultiFab) (hvol : p.m_uncoveredVol ≠ 0)
    (hT : Thetabar bd g p ≠ 0) :
    MFSum p (adjustPandDivU bd g p mac_divu).mac_divu / p.m_uncoveredVol = divu_vol bd p ∧
    (MFSum p (fun _ _ => 1) = p.m_uncoveredVol →
      MFSum p (adjustPandDivU bd g p mac_divu).mac_divu / MFSum p (fun _ _ => 1)
        = divu_vol bd p) := by
  have h := adjust_MFSum bd g p mac_divu hvol hT
  refine ⟨?_, fun hW => ?_⟩
  · rw [h]; field_simp
  · rw [hW, h]; field_simp

/-- C1 witness: two-level hierarchy with uniform theta = 1, Sbar = 2 and
divu_vol = 1/2; the corrected mean is 1/2. -/
theorem adjustPandDivU_mean_eq_divu_vol_witness :
    chamber2.m_uncoveredVol ≠ 0 ∧ Thetabar build2d gammaInvOne chamber2 ≠ 0 ∧
    MFSum chamber2 (fun _ _ => 1) = chamber2.m_uncoveredVol ∧
    Sbar chamber2 macDivu2 = 2 ∧
    MFSum chamber2 (adjustPandDivU build2d gammaInvOne chamber2 macDivu2).mac_divu
      / MFSum chamber2 (fun _ _ => 1) = 1 / 2 := by
  have hvol : chamber2.m_uncoveredVol ≠ 0 := by simp [chamber2]
  have hT : Thetabar build2d gammaInvOne chamber2 ≠ 0 := by rw [chamber2_Thetabar]; norm_num
  have hW : MFSum chamber2 (fun _ _ => 1) = chamber2.m_uncoveredVol := by
    rw [chamber2_weights]; simp [chamber2]
  refine ⟨hvol, hT, hW, chamber2_Sbar, ?_⟩
  rw [(adjustPandDivU_mean_eq_divu_vol build2d gammaInvOne chamber2 macDivu2 hvol hT).2 hW,
    chamber2_divu_vol]

/-- C2 counterexample: on the two-level chamber (theta_centered = 0, Sbar = 2,
divu_vol = 1/2) the cell (0,0,0) of level 0 ends at -1/2, whereas subtracting
theta_centered*Sbar/Thetabar + divu_vol*(1 + theta_centered/Thetabar) from the
centered value would give -3/2. -/
theorem adjustPandDivU_step6_plus_sign_fails :
    (adjustPandDivU build2d gammaInvOne chamber2 macDivu2).mac_divu 0 (0, 0, 0) = -1 / 2 ∧
    (macDivu2 0 (0, 0, 0) - Sbar chamber2 macDivu2)
      - (deltaTheta build2d gammaInvOne chamber2 0 (0, 0, 0) * Sbar chamber2 macDivu2
            / Thetabar build2d gammaInvOne chamber2
          + divu_vol build2d chamber2
            * (1 + deltaTheta build2d gammaInvOne chamber2 0 (0, 0, 0)
                / Thetabar build2d gammaInvOne chamber2)) = -3 / 2 ∧
    (adjustPandDivU build2d gammaInvOne chamber2 macDivu2).mac_divu 0 (0, 0, 0) ≠
      (macDivu2 0 (0, 0, 0) - Sbar chamber2 macDivu2)
      - (deltaTheta build2d gammaInvOne chamber2 0 (0, 0, 0) * Sbar chamber2 macDivu2
            / Thetabar build2d gammaInvOne chamber2
          + divu_vol build2d chamber2
            * (1 + deltaTheta build2d gammaInvOne chamber2 0 (0, 0, 0)
                / Thetabar build2d gammaInvOne chamber2)) := by
  have hlev : (0 : ℕ) ≤ chamber2.finest_level := Nat.zero_le _
  have hc : ((0, 0, 0) : amrex.IntVect) ∈ chamber2.grids 0 := by simp [chamber2]
  have hth : deltaTheta build2d gammaInvOne chamber2 0 (0, 0, 0) = 0 := by
    rw [deltaTheta_cell _ _ _ 0 hlev _ hc, chamber2_theta 0 (Nat.zero_le _) _ hc,
      chamber2_Thetabar]
    norm_num
  have hm : macDivu2 0 (0, 0, 0) = 1 := by simp [macDivu2]
  have h1 : (adjustPandDivU build2d gammaInvOne chamber2 macDivu2).mac_divu 0 (0, 0, 0)
      = -1 / 2 := by
    rw [adjust_cell _ _ _ _ 0 hlev _ hc, chamber2_theta 0 (Nat.zero_le _) _ hc,
      chamber2_Thetabar, chamber2_Sbar, chamber2_divu_vol, hm]
    norm_num
  have h2 : (macDivu2 0 (0, 0, 0) - Sbar chamber2 macDivu2)
      - (deltaTheta build2d gammaInvOne chamber2 0 (0, 0, 0) * Sbar chamber2 macDivu2
            / Thetabar build2d gammaInvOne chamber2
          + divu_vol build2d chamber2
            * (1 + deltaTheta build2d gammaInvOne chamber2 0 (0, 0, 0)
                / Thetabar build2d gammaInvOne chamber2)) = -3 / 2 := by
    rw [hth, chamber2_Thetabar, chamber2_Sbar, chamber2_divu_vol, hm]
    norm_num
  refine ⟨h1, h2, ?_⟩
  rw [h1, h2]
  norm_num

/-- C2 (amended): in step 6, for every valid cell, the value subtracted from the
mean-centered field is theta_centered*Sbar/Thetabar - divu_vol*(1 + theta_centered/Thetabar),
with theta_centered the half-time theta minus Thetabar; the final cell value is
(S - Sbar) - theta_centered*Sbar/Thetabar + divu_vol*(1 + theta_centered/Thetabar). -/
theorem adjustPandDivU_step6_subtracted (bd : Build) (g : GammaInvKernel) (p : PeleLM)
    (mac_divu : ℕ → amrex.MultiFab) (lev : ℕ) (hlev : lev ≤ p.finest_level)
    (c : amrex.IntVect) (hc : c ∈ p.grids lev) :
    deltaTheta bd g p lev c = ThetaHalft bd g p lev c - Thetabar bd g p ∧
    deltaS p mac_divu lev c = mac_divu lev c - Sbar p mac_divu ∧
    (adjustPandDivU bd g p mac_divu).mac_divu lev c =
      deltaS p mac_divu lev c
        - (deltaTheta bd g p lev c * Sbar p mac_divu / Thetabar bd g p
            - divu_vol bd p * (1 + deltaTheta bd g p lev c / Thetabar bd g p)) ∧
    (adjustPandDivU bd g p mac_divu).mac_divu lev c =
      (mac_divu lev c - Sbar p mac_divu)
        - deltaTheta bd g p lev c * Sbar p mac_divu / Thetabar bd g p
        + divu_vol bd p * (1 + deltaTheta bd g p lev c / Thetabar bd g p) := by
  have hθ := deltaTheta_cell bd g p lev hlev c hc
  have hS := deltaS_cell p mac_divu lev hlev c hc
  refine ⟨hθ, hS, ?_, ?_⟩
  · rw [adjust_cell bd g p mac_divu lev hlev c hc, hθ, hS]
  · rw [adjust_cell bd g p mac_divu lev hlev c hc, hθ]
    ring

/-- C2 witness: the amended step-6 form at cell (2,0,0) of the fine level of
the two-level chamber. -/
theorem adjustPandDivU_step6_subtracted_witness :
    (1 : ℕ) ≤ chamber2.finest_level ∧ ((2, 0, 0) : amrex.IntVect) ∈ chamber2.grids 1 ∧
    (adjustPandDivU build2d gammaInvOne chamber2 macDivu2).mac_divu 1 (2, 0, 0) =
      (macDivu2 1 (2, 0, 0) - Sbar chamber2 macDivu2)
        - deltaTheta build2d gammaInvOne chamber2 1 (2, 0, 0) * Sbar chamber2 macDivu2
            / Thetabar build2d gammaInvOne chamber2
        + divu_vol build2d chamber2
            * (1 + deltaTheta build2d gammaInvOne chamber2 1 (2, 0, 0)
                / Thetabar build2d gammaInvOne chamber2) :=
  ⟨Nat.le_refl 1, by simp [chamber2],
    (adjustPandDivU_step6_subtracted build2d gammaInvOne chamber2 macDivu2 1 (Nat.le_refl 1)
      (2, 0, 0) (by simp [chamber2])).2.2.2⟩


theorem umacFluxBalance_eq_sum (bd : Build) (p : PeleLM)
    (hdim : 1 ≤ bd.AMREX_SPACEDIM ∧ bd.AMREX_SPACEDIM ≤ 3) :
    umacFluxBalance bd p = ∑ i ∈ Finset.range (2 * bd.AMREX_SPACEDIM), p.m_domainUmacFlux i := by
  obtain ⟨h1, h3⟩ := hdim
  unfold umacFluxBalance
  generalize bd.AMREX_SPACEDIM = d at h1 h3
  interval_cases d <;> simp [Finset.sum_range_succ]

theorem Thetabar_uniform (bd : Build) (g : GammaInvKernel) (p : PeleLM) (t : amrex.Real)
    (hθ : ∀ lev, lev ≤ p.finest_level → ∀ c ∈ p.grids lev, ThetaHalft bd g p lev c = t) :
    Thetabar bd g p = t * MFSum p (fun _ _ => 1) / p.m_uncoveredVol := by
  unfold Thetabar
  rw [MFSum_congr p _ (fun _ _ => t) hθ, MFSum_uniform]

theorem Sbar_uniform (p : PeleLM) (mac_divu : ℕ → amrex.MultiFab) (s : amrex.Real)
    (hS : ∀ lev, lev ≤ p.finest_level → ∀ c ∈ p.grids lev, mac_divu lev c = s) :
    Sbar p mac_divu = s * MFSum p (fun _ _ => 1) / p.m_uncoveredVol := by
  unfold Sbar
  rw [MFSum_congr p _ (fun _ _ => s) hS, MFSum_uniform]

/-- C3: adjustPandDivU sets P_new = P_old + dt*(Sbar - divu_vol)/Thetabar and
dp0dt = (Sbar - divu_vol)/Thetabar, hence P_new = P_old + dt*dp0dt; P_old is left
unchanged; divu_vol is the sum of the 2*dimension boundary-flux entries over the
uncovered volume; with uniform theta = 1, Sbar = 3 and zero boundary flux,
P_new = P_old + dt*3 and dp0dt = 3. -/
theorem adjustPandDivU_pressure_update (bd : Build) (g : GammaInvKernel) (p : PeleLM)
    (mac_divu : ℕ → amrex.MultiFab)
    (hdim : 1 ≤ bd.AMREX_SPACEDIM ∧ bd.AMREX_SPACEDIM ≤ 3) :
    (adjustPandDivU bd g p mac_divu).pele.m_pNew =
      p.m_pOld + p.m_dt * (Sbar p mac_divu - divu_vol bd p) / Thetabar bd g p ∧
    (adjustPandDivU bd g p mac_divu).pele.m_dp0dt =
      (Sbar p mac_divu - divu_vol bd p) / Thetabar bd g p ∧
    (adjustPandDivU bd g p mac_divu).pele.m_pNew =
      (adjustPandDivU bd g p mac_divu).pele.m_pOld
        + p.m_dt * (adjustPandDivU bd g p mac_divu).pele.m_dp0dt ∧
    (adjustPandDivU bd g p mac_divu).pele.m_pOld = p.m_pOld ∧
    divu_vol bd p =
      (∑ i ∈ Finset.range (2 * bd.AMREX_SPACEDIM), p.m_domainUmacFlux i) / p.m_uncoveredVol ∧
    ((∀ lev, lev ≤ p.finest_level → ∀ c ∈ p.grids lev, ThetaHalft bd g p lev c = 1) →
      MFSum p (fun _ _ => 1) = p.m_uncoveredVol → p.m_uncoveredVol ≠ 0 →
      Sbar p mac_divu = 3 →
      (∀ i, i < 2 * bd.AMREX_SPACEDIM → p.m_domainUmacFlux i = 0) →
      (adjustPandDivU bd g p mac_divu).pele.m_pNew = p.m_pOld + p.m_dt * 3 ∧
      (adjustPandDivU bd g p mac_divu).pele.m_dp0dt = 3) := by
  have hdv : divu_vol bd p =
      (∑ i ∈ Finset.range (2 * bd.AMREX_SPACEDIM), p.m_domainUmacFlux i)
        / p.m_uncoveredVol := by
    unfold divu_vol
    rw [umacFluxBalance_eq_sum bd p hdim]
  refine ⟨rfl, rfl, ?_, rfl, hdv, ?_⟩
  · show p.m_pOld + p.m_dt * (Sbar p mac_divu - divu_vol bd p) / Thetabar bd g p
      = p.m_pOld + p.m_dt * ((Sbar p mac_divu - divu_vol bd p) / Thetabar bd g p)
    rw [mul_div_assoc]
  · intro hθ hW hvol hS hflux
    have hT : Thetabar bd g p = 1 := by
      rw [Thetabar_uniform bd g p 1 hθ, hW]
      field_simp
    have h0 : divu_vol bd p = 0 := by
      rw [hdv, Finset.sum_eq_zero (fun i hi => hflux i (Finset.mem_range.mp hi))]
      simp
    constructor
    · show p.m_pOld + p.m_dt * (Sbar p mac_divu - divu_vol bd p) / Thetabar bd g p = _
      rw [hT, h0, hS]; simp
    · show (Sbar p mac_divu - divu_vol bd p) / Thetabar bd g p = _
      rw [hT, h0, hS]; simp

/-- C4: when the half-time theta field is uniform and non-zero, the input
mac_divu is uniform and the boundary flux balance is zero (uncovered volume and
total weight non-zero), every valid cell of the corrected mac_divu is exactly 0. -/
theorem adjustPandDivU_uniform_gives_zero (bd : Build) (g : GammaInvKernel) (p : PeleLM)
    (mac_divu : ℕ → amrex.MultiFab) (s t : amrex.Real)
    (hvol : p.m_uncoveredVol ≠ 0) (hW : MFSum p (fun _ _ => 1) ≠ 0) (ht : t ≠ 0)
    (hθ : ∀ lev, lev ≤ p.finest_level → ∀ c ∈ p.grids lev, ThetaHalft bd g p lev c = t)
    (hS : ∀ lev, lev ≤ p.finest_level → ∀ c ∈ p.grids lev, mac_divu lev c = s)
    (hflux : umacFluxBalance bd p = 0) :
    ∀ lev, lev ≤ p.finest_level → ∀ c ∈ p.grids lev,
      (adjustPandDivU bd g p mac_divu).mac_divu lev c = 0 := by
  intro lev hlev c hc
  have hT : Thetabar bd g p ≠ 0 := by
    rw [Thetabar_uniform bd g p t hθ]
    exact div_ne_zero (mul_ne_zero ht hW) hvol
  have h0 : divu_vol bd p = 0 := by unfold divu_vol; rw [hflux]; simp
  rw [adjust_cell_closed bd g p mac_divu hT lev hlev c hc, h0, hθ lev hlev c hc,
    hS lev hlev c hc, Sbar_uniform p mac_divu s hS, Thetabar_uniform bd g p t hθ]
  field_simp
  ring

/-- C5: the value returned by adjustPandDivU is Sbar, the global sum of the
input mac_divu over the uncovered volume; on every valid cell the field left
behind is the input minus Sbar minus the step-6 correction, and every other
cell is left as it was: Sbar is not added back. -/
theorem adjustPandDivU_returns_Sbar (bd : Build) (g : GammaInvKernel) (p : PeleLM)
    (mac_divu : ℕ → amrex.MultiFab) :
    (adjustPandDivU bd g p mac_divu).ret = MFSum p mac_divu / p.m_uncoveredVol ∧
    (∀ lev c, lev ≤ p.finest_level → c ∈ p.grids lev →
      (adjustPandDivU bd g p mac_divu).mac_divu lev c =
        (mac_divu lev c - (adjustPandDivU bd g p mac_divu).ret)
          - (deltaTheta bd g p lev c * (adjustPandDivU bd g p mac_divu).ret / Thetabar bd g p
              - divu_vol bd p * (1 + deltaTheta bd g p lev c / Thetabar bd g p))) ∧
    (∀ lev c, ¬ (lev ≤ p.finest_level ∧ c ∈ p.grids lev) →
      (adjustPandDivU bd g p mac_divu).mac_divu lev c = mac_divu lev c) := by
  refine ⟨rfl, fun lev c hlev hc => ?_, fun lev c h => adjust_cell_outside bd g p mac_divu lev c h⟩
  rw [adjust_cell bd g p mac_divu lev hlev c hc, deltaTheta_cell bd g p lev hlev c hc]
  rfl


theorem grid8x8_theta_one (lev : ℕ) (hlev : lev ≤ (grid8x8 101325 (1 / 1000)).finest_level)
    (c : amrex.IntVect) (hc : c ∈ (grid8x8 101325 (1 / 1000)).grids lev) :
    ThetaHalft build2d (gammaInvConst 101325) (grid8x8 101325 (1 / 1000)) lev c = 1 := by
  rw [grid8x8_theta 101325 (1 / 1000) 101325 (by norm_num) lev hlev c hc]
  norm_num

theorem grid8x8_Sbar (pOld dt s : amrex.Real) :
    Sbar (grid8x8 pOld dt) (uniformField s) = s := by
  rw [Sbar_uniform (grid8x8 pOld dt) (uniformField s) s (fun _ _ _ _ => rfl), grid8x8_weights]
  simp [grid8x8]

/-- C3 witness: 8x8 single-level grid, theta = 1, input uniformly 3, zero flux,
P_old = 101325, dt = 1/1000. -/
theorem adjustPandDivU_pressure_update_witness :
    (1 ≤ build2d.AMREX_SPACEDIM ∧ build2d.AMREX_SPACEDIM ≤ 3) ∧
    (∀ lev, lev ≤ (grid8x8 101325 (1 / 1000)).finest_level →
      ∀ c ∈ (grid8x8 101325 (1 / 1000)).grids lev,
        ThetaHalft build2d (gammaInvConst 101325) (grid8x8 101325 (1 / 1000)) lev c = 1) ∧
    MFSum (grid8x8 101325 (1 / 1000)) (fun _ _ => 1)
      = (grid8x8 101325 (1 / 1000)).m_uncoveredVol ∧
    (grid8x8 101325 (1 / 1000)).m_uncoveredVol ≠ 0 ∧
    Sbar (grid8x8 101325 (1 / 1000)) (uniformField 3) = 3 ∧
    (∀ i, i < 2 * build2d.AMREX_SPACEDIM →
      (grid8x8 101325 (1 / 1000)).m_domainUmacFlux i = 0) ∧
    (adjustPandDivU build2d (gammaInvConst 101325) (grid8x8 101325 (1 / 1000))
        (uniformField 3)).pele.m_pNew = 101325 + 1 / 1000 * 3 ∧
    (adjustPandDivU build2d (gammaInvConst 101325) (grid8x8 101325 (1 / 1000))
        (uniformField 3)).pele.m_dp0dt = 3 := by
  have hdim : 1 ≤ build2d.AMREX_SPACEDIM ∧ build2d.AMREX_SPACEDIM ≤ 3 := by
    simp [build2d]
  have hW : MFSum (grid8x8 101325 (1 / 1000)) (fun _ _ => 1)
      = (grid8x8 101325 (1 / 1000)).m_uncoveredVol := by
    rw [grid8x8_weights]; rfl
  have hvol : (grid8x8 101325 (1 / 1000)).m_uncoveredVol ≠ 0 := by
    simp [grid8x8]
  have hflux : ∀ i, i < 2 * build2d.AMREX_SPACEDIM →
      (grid8x8 101325 (1 / 1000)).m_domainUmacFlux i = 0 := fun _ _ => rfl
  exact ⟨hdim, grid8x8_theta_one, hW, hvol, grid8x8_Sbar _ _ 3, hflux,
    (adjustPandDivU_pressure_update build2d (gammaInvConst 101325)
      (grid8x8 101325 (1 / 1000)) (uniformField 3) hdim).2.2.2.2.2
      grid8x8_theta_one hW hvol (grid8x8_Sbar _ _ 3) hflux⟩

/-- C4 witness: 8x8 single-level grid, theta = 1, uncovered volume 64, input
uniformly 3, zero flux: the corrected field is 0 in every valid cell. -/
theorem adjustPandDivU_uniform_gives_zero_witness :
    (grid8x8 101325 (1 / 1000)).finest_level = 0 ∧
    ((grid8x8 101325 (1 / 1000)).grids 0).card = 64 ∧
    (grid8x8 101325 (1 / 1000)).m_uncoveredVol = 64 ∧
    MFSum (grid8x8 101325 (1 / 1000)) (fun _ _ => 1) = 64 ∧
    (∀ lev, lev ≤ (grid8x8 101325 (1 / 1000)).finest_level →
      ∀ c ∈ (grid8x8 101325 (1 / 1000)).grids lev,
        ThetaHalft build2d (gammaInvConst 101325) (grid8x8 101325 (1 / 1000)) lev c = 1) ∧
    umacFluxBalance build2d (grid8x8 101325 (1 / 1000)) = 0 ∧
    (∀ lev, lev ≤ (grid8x8 101325 (1 / 1000)).finest_level →
      ∀ c ∈ (grid8x8 101325 (1 / 1000)).grids lev,
        (adjustPandDivU build2d (gammaInvConst 101325) (grid8x8 101325 (1 / 1000))
          (uniformField 3)).mac_divu lev c = 0) := by
  have hflux : umacFluxBalance build2d (grid8x8 101325 (1 / 1000)) = 0 := by
    simp [umacFluxBalance, build2d, grid8x8]
  refine ⟨rfl, by simp [grid8x8], rfl, grid8x8_weights _ _, grid8x8_theta_one, hflux, ?_⟩
  exact adjustPandDivU_uniform_gives_zero build2d (gammaInvConst 101325)
    (grid8x8 101325 (1 / 1000)) (uniformField 3) 3 1 (by simp [grid8x8])
    (by rw [grid8x8_weights]; norm_num) one_ne_zero grid8x8_theta_one
    (fun _ _ _ _ => rfl) hflux

/-- C5 witness: on the two-level chamber the return value is 2; the valid fine
cell (2,0,0) is the input minus Sbar minus the step-6 correction, and the cell
(9,9,9), outside every grid, keeps its value. -/
theorem adjustPandDivU_returns_Sbar_witness :
    (adjustPandDivU build2d gammaInvOne chamber2 macDivu2).ret = 2 ∧
    (1 ≤ chamber2.finest_level ∧ ((2, 0, 0) : amrex.IntVect) ∈ chamber2.grids 1) ∧
    (adjustPandDivU build2d gammaInvOne chamber2 macDivu2).mac_divu 1 (2, 0, 0) =
      (macDivu2 1 (2, 0, 0) - (adjustPandDivU build2d gammaInvOne chamber2 macDivu2).ret)
        - (deltaTheta build2d gammaInvOne chamber2 1 (2, 0, 0)
              * (adjustPandDivU build2d gammaInvOne chamber2 macDivu2).ret
              / Thetabar build2d gammaInvOne chamber2
            - divu_vol build2d chamber2
              * (1 + deltaTheta build2d gammaInvOne chamber2 1 (2, 0, 0)
                  / Thetabar build2d gammaInvOne chamber2)) ∧
    ¬ (1 ≤ chamber2.finest_level ∧ ((9, 9, 9) : amrex.IntVect) ∈ chamber2.grids 1) ∧
    (adjustPandDivU build2d gammaInvOne chamber2 macDivu2).mac_divu 1 (9, 9, 9)
      = macDivu2 1 (9, 9, 9) := by
  have h := adjustPandDivU_returns_Sbar build2d gammaInvOne chamber2 macDivu2
  have hin : (1 : ℕ) ≤ chamber2.finest_level ∧ ((2, 0, 0) : amrex.IntVect) ∈ chamber2.grids 1 :=
    ⟨Nat.le_refl 1, by simp [chamber2]⟩
  have hout : ¬ (1 ≤ chamber2.finest_level ∧ ((9, 9, 9) : amrex.IntVect) ∈ chamber2.grids 1) := by
    simp +decide [chamber2]
  refine ⟨?_, hin, h.2.1 1 (2, 0, 0) hin.1 hin.2, hout, h.2.2 1 (9, 9, 9) hout⟩
  exact chamber2_Sbar

/-! ## setRhoToSumRhoY -/

theorem sumRhoY_foldl_off_density (bd : Build) (l : List ℕ) (a : ℕ → amrex.Real) (ch : ℕ)
    (hch : ch ≠ bd.DENSITY) :
    (l.foldl (fun a n => Function.update a bd.DENSITY (a bd.DENSITY + a (bd.FIRSTSPEC + n))) a) ch
      = a ch := by
  induction l generalizing a with
  | nil => rfl
  | cons n l ih =>
    rw [List.foldl_cons, ih]
    exact Function.update_noteq hch _ _

theorem sumRhoYCell_off_density (bd : Build) (s : ℕ → amrex.Real) (ch : ℕ)
    (hch : ch ≠ bd.DENSITY) : sumRhoYCell bd s ch = s ch := by
  unfold sumRhoYCell
  rw [sumRhoY_foldl_off_density bd _ _ ch hch]
  exact Function.update_noteq hch _ _

theorem sumRhoYCell_idem (bd : Build) (s : ℕ → amrex.Real) :
    sumRhoYCell bd (sumRhoYCell bd s) = sumRhoYCell bd s := by
  have h : Function.update (sumRhoYCell bd s) bd.DENSITY 0 = Function.update s bd.DENSITY 0 := by
    funext ch
    by_cases hch : ch = bd.DENSITY
    · subst hch; simp
    · rw [Function.update_noteq hch, Function.update_noteq hch,
        sumRhoYCell_off_density bd s ch hch]
  have e : ∀ t, sumRhoYCell bd t = (List.range bd.NUM_SPECIES).foldl
      (fun a n => Function.update a bd.DENSITY (a bd.DENSITY + a (bd.FIRSTSPEC + n)))
      (Function.update t bd.DENSITY 0) := fun _ => rfl
  rw [e (sumRhoYCell bd s), h, ← e s]

theorem sumRhoY_foldl_density (bd : Build) (l : List ℕ)
    (hl : ∀ n ∈ l, bd.FIRSTSPEC + n ≠ bd.DENSITY) (a : ℕ → amrex.Real) :
    (l.foldl (fun a n => Function.update a bd.DENSITY (a bd.DENSITY + a (bd.FIRSTSPEC + n))) a)
        bd.DENSITY
      = l.foldl (fun acc n => acc + a (bd.FIRSTSPEC + n)) (a bd.DENSITY) := by
  induction l generalizing a with
  | nil => rfl
  | cons n l ih =>
    rw [List.foldl_cons, List.foldl_cons, ih (fun m hm => hl m (List.mem_cons_of_mem _ hm))]
    rw [Function.update_same]
    refine List.foldl_ext _ _ _ (fun acc m hm => ?_)
    rw [Function.update_noteq (hl m (List.mem_cons_of_mem _ hm))]

theorem sumRhoYCell_density (bd : Build) (s : ℕ → amrex.Real)
    (hD : ∀ n, n < bd.NUM_SPECIES → bd.FIRSTSPEC + n ≠ bd.DENSITY) :
    sumRhoYCell bd s bd.DENSITY
      = (List.range bd.NUM_SPECIES).foldl (fun acc n => acc + s (bd.FIRSTSPEC + n)) 0 := by
  unfold sumRhoYCell
  rw [sumRhoY_foldl_density bd _ (fun n hn => hD n (List.mem_range.mp hn)), Function.update_same]
  refine List.foldl_ext _ _ _ (fun acc m hm => ?_)
  rw [Function.update_noteq (hD m (List.mem_range.mp hm))]

theorem foldl_add_range_eq_sum (f : ℕ → amrex.Real) (n : ℕ) :
    (List.range n).foldl (fun acc k => acc + f k) 0 = ∑ k ∈ Finset.range n, f k := by
  induction n with
  | zero => rfl
  | succ n ih => rw [List.range_succ, List.foldl_append, ih, Finset.sum_range_succ]; rfl

/-- State array left by the ParallelFor of setRhoToSumRhoY. -/
theorem sumRhoY_state_idem (bd : Build) (valid : Finset amrex.IntVect) (st : amrex.Array4) :
    (fun c => if c ∈ valid
        then sumRhoYCell bd ((fun c => if c ∈ valid then sumRhoYCell bd (st c) else st c) c)
        else (fun c => if c ∈ valid then sumRhoYCell bd (st c) else st c) c)
      = (fun c => if c ∈ valid then sumRhoYCell bd (st c) else st c) := by
  funext c
  by_cases hc : c ∈ valid
  · simp only [hc, if_true, sumRhoYCell_idem]
  · simp only [hc, if_false]

/-- C7: for every state, level and valid TimeStamp, setRhoToSumRhoY returns, and
applying it again to the state it returned returns that same state. -/
theorem setRhoToSumRhoY_idempotent (bd : Build) (p : PeleLM) (lev : ℕ) (a_time : TimeStamp)
    (ht : a_time = TimeStamp.AmrOldTime ∨ a_time = TimeStamp.AmrNewTime) :
    ∃ q, setRhoToSumRhoY bd p lev a_time = .ok q ∧ setRhoToSumRhoY bd q lev a_time = .ok q := by
  rcases ht with h | h <;> subst h
  · refine ⟨_, rfl, ?_⟩
    simp only [setRhoToSumRhoY, AMREX_ASSERT, isOldOrNew, getLevelDataPtr, setLevelData,
      bind, Except.bind, pure, Except.pure]
    simp only [beq_self_eq_true, Bool.true_or, if_true, Function.update_same,
      Function.update_idem]
    rw [sumRhoY_state_idem]
  · refine ⟨_, rfl, ?_⟩
    simp only [setRhoToSumRhoY, AMREX_ASSERT, isOldOrNew, getLevelDataPtr, setLevelData,
      bind, Except.bind, pure, Except.pure]
    simp only [beq_self_eq_true, Bool.or_true, if_true, Function.update_same,
      Function.update_idem]
    rw [sumRhoY_state_idem]

/-- C7 witness: new-time state of the fine level of the two-level chamber. -/
theorem setRhoToSumRhoY_idempotent_witness :
    (TimeStamp.AmrNewTime = TimeStamp.AmrOldTime ∨ TimeStamp.AmrNewTime = TimeStamp.AmrNewTime) ∧
    ∃ q, setRhoToSumRhoY build2d channelCase 1 TimeStamp.AmrNewTime = .ok q ∧
      setRhoToSumRhoY build2d q 1 TimeStamp.AmrNewTime = .ok q :=
  ⟨Or.inr rfl, setRhoToSumRhoY_idempotent build2d channelCase 1 TimeStamp.AmrNewTime (Or.inr rfl)⟩

theorem getLevelDataPtr_setLevelData_same (p : PeleLM) (lev : ℕ) (a_time : TimeStamp)
    (ht : a_time = TimeStamp.AmrOldTime ∨ a_time = TimeStamp.AmrNewTime) (ld : LevelData) :
    getLevelDataPtr (setLevelData p lev a_time ld) lev a_time = .ok ld := by
  rcases ht with h | h <;> subst h <;> simp [getLevelDataPtr, setLevelData]

theorem getLevelDataPtr_setLevelData_other (p : PeleLM) (lev lev1 : ℕ) (a_time t1 : TimeStamp)
    (ld : LevelData) (h : lev1 ≠ lev ∨ t1 ≠ a_time) :
    getLevelDataPtr (setLevelData p lev a_time ld) lev1 t1 = getLevelDataPtr p lev1 t1 := by
  cases a_time <;> cases t1 <;> simp_all [getLevelDataPtr, setLevelData, Function.update_noteq]

theorem setLevelData_restore (p : PeleLM) (lev : ℕ) (a_time : TimeStamp) (ld ld1 : LevelData)
    (h : getLevelDataPtr p lev a_time = .ok ld) :
    setLevelData (setLevelData p lev a_time ld1) lev a_time ld = p := by
  cases a_time with
  | AmrOldTime =>
    simp only [getLevelDataPtr, Except.ok.injEq] at h
    simp [setLevelData, ← h]
  | AmrNewTime =>
    simp only [getLevelDataPtr, Except.ok.injEq] at h
    simp [setLevelData, ← h]
  | other tag => simp [getLevelDataPtr] at h

theorem setRhoToSumRhoY_ok (bd : Build) (p : PeleLM) (lev : ℕ) (a_time : TimeStamp)
    (ht : a_time = TimeStamp.AmrOldTime ∨ a_time = TimeStamp.AmrNewTime) :
    ∃ ld, getLevelDataPtr p lev a_time = .ok ld ∧
      setRhoToSumRhoY bd p lev a_time = .ok (setLevelData p lev a_time
        { ld with state := fun c =>
            if c ∈ p.grids lev then sumRhoYCell bd (ld.state c) else ld.state c }) := by
  rcases ht with h | h <;> subst h
  · exact ⟨p.m_leveldata_old lev, rfl, rfl⟩
  · exact ⟨p.m_leveldata_new lev, rfl, rfl⟩

/-- C8: after setRhoToSumRhoY(lev, time) with a valid TimeStamp and a channel
layout in which DENSITY is not a species channel, in every valid cell DENSITY is
the sum of the NUM_SPECIES species channels as they were before the call, added
in increasing species index starting from 0; every channel other than DENSITY,
every other level, the other TimeStamp and all other members are unchanged. -/
theorem setRhoToSumRhoY_density_and_frame (bd : Build) (p : PeleLM) (lev : ℕ)
    (a_time : TimeStamp)
    (ht : a_time = TimeStamp.AmrOldTime ∨ a_time = TimeStamp.AmrNewTime)
    (hD : ∀ n, n < bd.NUM_SPECIES → bd.FIRSTSPEC + n ≠ bd.DENSITY) :
    ∃ q ld ld1, setRhoToSumRhoY bd p lev a_time = .ok q ∧
      getLevelDataPtr p lev a_time = .ok ld ∧ getLevelDataPtr q lev a_time = .ok ld1 ∧
      (∀ c ∈ p.grids lev,
        ld1.state c bd.DENSITY =
          (List.range bd.NUM_SPECIES).foldl (fun acc n => acc + ld.state c (bd.FIRSTSPEC + n)) 0 ∧
        ld1.state c bd.DENSITY = ∑ n ∈ Finset.range bd.NUM_SPECIES, ld.state c (bd.FIRSTSPEC + n)) ∧
      (∀ c ch, ch ≠ bd.DENSITY → ld1.state c ch = ld.state c ch) ∧
      (∀ c, c ∉ p.grids lev → ld1.state c = ld.state c) ∧
      ld1.divu = ld.divu ∧
      (∀ lev1 t1, lev1 ≠ lev ∨ t1 ≠ a_time →
        getLevelDataPtr q lev1 t1 = getLevelDataPtr p lev1 t1) ∧
      setLevelData q lev a_time ld = p := by
  obtain ⟨ld, hld, hq⟩ := setRhoToSumRhoY_ok bd p lev a_time ht
  refine ⟨_, ld, _, hq, hld, getLevelDataPtr_setLevelData_same p lev a_time ht _, ?_, ?_, ?_, rfl,
    fun lev1 t1 h => getLevelDataPtr_setLevelData_other p lev lev1 a_time t1 _ h,
    setLevelData_restore p lev a_time ld _ hld⟩
  · intro c hc
    have h1 : (if c ∈ p.grids lev then sumRhoYCell bd (ld.state c) else ld.state c) bd.DENSITY
        = (List.range bd.NUM_SPECIES).foldl
            (fun acc n => acc + ld.state c (bd.FIRSTSPEC + n)) 0 := by
      rw [if_pos hc, sumRhoYCell_density bd _ hD]
    exact ⟨h1, h1.trans (foldl_add_range_eq_sum (fun n => ld.state c (bd.FIRSTSPEC + n)) _)⟩
  · intro c ch hch
    show (if c ∈ p.grids lev then sumRhoYCell bd (ld.state c) else ld.state c) ch = ld.state c ch
    split
    · exact sumRhoYCell_off_density bd _ ch hch
    · rfl
  · intro c hc
    show (if c ∈ p.grids lev then sumRhoYCell bd (ld.state c) else ld.state c) = ld.state c
    rw [if_neg hc]

/-- C8 witness: two species in channels 3 and 4 holding 3 and 4, DENSITY in
channel 2: after the call the new-time density of cell (2,0,0) on level 1 is 7,
channel 6 still holds 6, and the old-time state of that level is untouched. -/
theorem setRhoToSumRhoY_density_and_frame_witness :
    (TimeStamp.AmrNewTime = TimeStamp.AmrOldTime ∨ TimeStamp.AmrNewTime = TimeStamp.AmrNewTime) ∧
    (∀ n, n < build2d.NUM_SPECIES → build2d.FIRSTSPEC + n ≠ build2d.DENSITY) ∧
    ∃ q, setRhoToSumRhoY build2d channelCase 1 TimeStamp.AmrNewTime = .ok q ∧
      (q.m_leveldata_new 1).state (2, 0, 0) 2 = 7 ∧
      (q.m_leveldata_new 1).state (2, 0, 0) 6 = 6 ∧
      getLevelDataPtr q 1 TimeStamp.AmrOldTime = getLevelDataPtr channelCase 1 TimeStamp.AmrOldTime := by
  have hD : ∀ n, n < build2d.NUM_SPECIES → build2d.FIRSTSPEC + n ≠ build2d.DENSITY := by
    intro n _; simp only [build2d]; omega
  obtain ⟨q, ld, ld1, hq, hld, hld1, hden, hch, -, -, hother, -⟩ :=
    setRhoToSumRhoY_density_and_frame build2d channelCase 1 TimeStamp.AmrNewTime (Or.inr rfl) hD
  refine ⟨Or.inr rfl, hD, q, hq, ?_, ?_, hother 1 TimeStamp.AmrOldTime (Or.inr (by decide))⟩
  · have e1 : ld1 = q.m_leveldata_new 1 := by
      simp only [getLevelDataPtr, Except.ok.injEq] at hld1; exact hld1.symm
    have e0 : ld = channelCase.m_leveldata_new 1 := by
      simp only [getLevelDataPtr, Except.ok.injEq] at hld; exact hld.symm
    have hc : ((2, 0, 0) : amrex.IntVect) ∈ channelCase.grids 1 := by
      simp [channelCase, chamber2]
    have := (hden (2, 0, 0) hc).2
    rw [e1, e0] at this
    rw [show (2 : ℕ) = build2d.DENSITY from rfl, this]
    simp [build2d, channelCase, Finset.sum_range_succ]
    norm_num
  · have e1 : ld1 = q.m_leveldata_new 1 := by
      simp only [getLevelDataPtr, Except.ok.injEq] at hld1; exact hld1.symm
    have e0 : ld = channelCase.m_leveldata_new 1 := by
      simp only [getLevelDataPtr, Except.ok.injEq] at hld; exact hld.symm
    have := hch (2, 0, 0) 6 (by simp [build2d])
    rw [e1, e0] at this
    rw [this]
    simp [channelCase]

/-! ## calc_dPdt -/

/-- C6: for every valid cell and for both TimeStamp values, calc_dPdt returns and
writes (P_thermo - m_pNew) / (dt * P_thermo) * dpdt_factor, with P_thermo the
RHORT channel of the state selected by the TimeStamp and the ambient pressure
always m_pNew; with P_thermo = 101325, m_pNew = 100000, dt = 1/1000 and factor 1
the value is 1325000/101325, which rounds to 13.08. -/
theorem calc_dPdt_cell (bd : Build) (p : PeleLM) (lev : ℕ) (a_time : TimeStamp)
    (a_dPdt : amrex.MultiFab) (c : amrex.IntVect)
    (ht : a_time = TimeStamp.AmrOldTime ∨ a_time = TimeStamp.AmrNewTime)
    (hc : c ∈ p.grids lev) :
    ∃ out ld, calc_dPdt bd p lev a_time a_dPdt = .ok out ∧
      getLevelDataPtr p lev a_time = .ok ld ∧
      (a_time = TimeStamp.AmrOldTime → ld = p.m_leveldata_old lev) ∧
      (a_time = TimeStamp.AmrNewTime → ld = p.m_leveldata_new lev) ∧
      out c = (ld.state c bd.RHORT - p.m_pNew) / (p.m_dt * ld.state c bd.RHORT)
                * p.m_dpdtFactor ∧
      (ld.state c bd.RHORT = 101325 → p.m_pNew = 100000 → p.m_dt = 1 / 1000 →
        p.m_dpdtFactor = 1 →
        out c = 1325000 / 101325 ∧ round (100 * out c) = 1308) := by
  have key : ∀ ld : LevelData, getLevelDataPtr p lev a_time = .ok ld →
      ∃ out, calc_dPdt bd p lev a_time a_dPdt = .ok out ∧
        out c = (ld.state c bd.RHORT - p.m_pNew) / (p.m_dt * ld.state c bd.RHORT)
                  * p.m_dpdtFactor := by
    intro ld hld
    have e : calc_dPdt bd p lev a_time a_dPdt = .ok (amrex.ParallelFor (p.grids lev)
        (fun c => (ld.state c bd.RHORT - p.m_pNew) / (p.m_dt * ld.state c bd.RHORT)
          * p.m_dpdtFactor) a_dPdt) := by
      simp only [calc_dPdt, hld, bind, Except.bind, pure, Except.pure]
    refine ⟨_, e, ?_⟩
    simp only [amrex.ParallelFor, hc, if_true]
  have num : ∀ (out : amrex.MultiFab) (ld : LevelData),
      out c = (ld.state c bd.RHORT - p.m_pNew) / (p.m_dt * ld.state c bd.RHORT)
                * p.m_dpdtFactor →
      ld.state c bd.RHORT = 101325 → p.m_pNew = 100000 → p.m_dt = 1 / 1000 →
      p.m_dpdtFactor = 1 → out c = 1325000 / 101325 ∧ round (100 * out c) = 1308 := by
    intro out ld ho h1 h2 h3 h4
    have hv : out c = 1325000 / 101325 := by
      rw [ho, h1, h2, h3, h4]; norm_num
    refine ⟨hv, ?_⟩
    rw [hv, round_eq, Int.floor_eq_iff]
    constructor <;> norm_num
  rcases ht with h | h <;> subst h
  · obtain ⟨out, ho, hv⟩ := key (p.m_leveldata_old lev) rfl
    exact ⟨out, _, ho, rfl, fun _ => rfl, fun h => absurd h (by decide), hv, num out _ hv⟩
  · obtain ⟨out, ho, hv⟩ := key (p.m_leveldata_new lev) rfl
    exact ⟨out, _, ho, rfl, fun h => absurd h (by decide), fun _ => rfl, hv, num out _ hv⟩

/-- C6 witness: old-time call on the 8x8 grid with P_thermo = 101325,
m_pNew = 100000, dt = 1/1000, factor 1, at cell (3,5,0). -/
theorem calc_dPdt_cell_witness :
    (TimeStamp.AmrOldTime = TimeStamp.AmrOldTime ∨ TimeStamp.AmrOldTime = TimeStamp.AmrNewTime) ∧
    ((3, 5, 0) : amrex.IntVect) ∈ dPdtCase.grids 0 ∧
    ∃ out, calc_dPdt build2d dPdtCase 0 TimeStamp.AmrOldTime (fun _ => 0) = .ok out ∧
      out (3, 5, 0) = 1325000 / 101325 ∧ round (100 * out (3, 5, 0)) = 1308 := by
  have hc : ((3, 5, 0) : amrex.IntVect) ∈ dPdtCase.grids 0 := by
    simp [dPdtCase, grid8x8]
  obtain ⟨out, ld, ho, hld, hold, -, -, hnum⟩ :=
    calc_dPdt_cell build2d dPdtCase 0 TimeStamp.AmrOldTime (fun _ => 0) (3, 5, 0) (Or.inl rfl) hc
  refine ⟨Or.inl rfl, hc, out, ho, ?_⟩
  have e := hold rfl
  exact hnum (by rw [e]; rfl) rfl rfl rfl

/-! ## calcDivU: embedded-boundary masking -/

/-- C9: in the embedded-boundary build the per-box assembly writes 0 to every
cell of a box classified covered; in a box neither covered nor regular it
writes 0 to every cell flagged covered, whatever the kernel and its inputs are;
and, a regular box having no cell flagged covered, compute_divu is run only in
cells not flagged covered. -/
theorem calcDivU_box_covered_zero (bd : Build) (hEB : bd.AMREX_USE_EB = true)
    (compute_divu : DivUKernel) (fabType : amrex.FabType)
    (flagIsCovered : amrex.IntVect → Bool) (bx : amrex.Box) (args : DivUArgs)
    (divu : amrex.MultiFab) :
    (fabType = amrex.FabType.covered → ∀ c, bx.contains c = true →
      calcDivU_box bd compute_divu fabType flagIsCovered bx args divu c = 0) ∧
    (fabType ≠ amrex.FabType.covered → fabType ≠ amrex.FabType.regular →
      ∀ c, bx.contains c = true → flagIsCovered c = true →
        calcDivU_box bd compute_divu fabType flagIsCovered bx args divu c = 0) ∧
    ((fabType = amrex.FabType.regular → ∀ c, bx.contains c = true → flagIsCovered c = false) →
      ∀ c, bx.contains c = true →
        calcDivU_boxKernel bd fabType flagIsCovered c = DivUStmt.compute_divu →
        flagIsCovered c = false) := by
  refine ⟨fun hcov c hc => ?_, fun hncov hnreg c hc hflag => ?_, fun hreg c hc hk => ?_⟩
  · simp [calcDivU_box, amrex.ParallelForBox, hc, calcDivU_boxKernel, hEB, hcov, DivUStmt.value]
  · simp [calcDivU_box, amrex.ParallelForBox, hc, calcDivU_boxKernel, hEB, hncov, hnreg, hflag,
      DivUStmt.value]
  · by_cases hcov : fabType = amrex.FabType.covered
    · simp [calcDivU_boxKernel, hEB, hcov] at hk
    · by_cases hr : fabType = amrex.FabType.regular
      · exact hreg hr c hc
      · cases hf : flagIsCovered c with
        | false => rfl
        | true => simp [calcDivU_boxKernel, hEB, hcov, hr, hf] at hk

/-- C9 witness: a 4x4 box cut by the boundary whose left column is covered and
a kernel returning 7: the covered cell (0,2,0) gets 0, the fluid cell (1,2,0)
gets 7; the same box classified covered gets 0 in the fluid cell too. -/
theorem calcDivU_box_covered_zero_witness :
    build2d.AMREX_USE_EB = true ∧
    calcDivU_box build2d divuSeven amrex.FabType.covered leftColumnCovered tileBox zeroArgs
      (fun _ => 5) (1, 2, 0) = 0 ∧
    calcDivU_box build2d divuSeven amrex.FabType.singlevalued leftColumnCovered tileBox zeroArgs
      (fun _ => 5) (0, 2, 0) = 0 ∧
    calcDivU_box build2d divuSeven amrex.FabType.singlevalued leftColumnCovered tileBox zeroArgs
      (fun _ => 5) (1, 2, 0) = 7 ∧
    leftColumnCovered (1, 2, 0) = false := by
  have h := calcDivU_box_covered_zero build2d rfl divuSeven amrex.FabType.singlevalued
    leftColumnCovered tileBox zeroArgs (fun _ => 5)
  have h1 := calcDivU_box_covered_zero build2d rfl divuSeven amrex.FabType.covered
    leftColumnCovered tileBox zeroArgs (fun _ => 5)
  refine ⟨rfl, h1.1 rfl (1, 2, 0) (by decide),
    h.2.1 (by decide) (by decide) (0, 2, 0) (by decide) (by decide), ?_,
    h.2.2 (fun hr => absurd hr (by decide)) (1, 2, 0) (by decide) (by decide)⟩
  simp +decide [calcDivU_box, amrex.ParallelForBox, calcDivU_boxKernel, build2d,
    leftColumnCovered, DivUStmt.value, divuSeven]

/-! ## calcDivU: multilevel consistency steps -/

theorem mem_calcDivU_avgDown (bd : Build) (L : ℕ) (x : Call) :
    x ∈ calcDivU_avgDown bd L ↔
      ∃ crse, crse < L ∧
        x = (if bd.AMREX_USE_EB = true then Call.EB_average_down (crse + 1) crse crse
              else Call.average_down (crse + 1) crse crse) := by
  induction L with
  | zero => simp [calcDivU_avgDown]
  | succ L ih =>
    rw [calcDivU_avgDown, List.mem_cons, ih]
    constructor
    · rintro (h | ⟨crse, hlt, h⟩)
      · exact ⟨L, Nat.lt_succ_self L, h⟩
      · exact ⟨crse, Nat.lt_succ_of_lt hlt, h⟩
    · rintro ⟨crse, hlt, h⟩
      rcases Nat.lt_succ_iff_lt_or_eq.mp hlt with h1 | h1
      · exact Or.inr ⟨crse, h1, h⟩
      · subst h1; exact Or.inl h

theorem mapM_ok_eq_map {ε α β : Type} (f : α → β) (l : List α) :
    l.mapM (fun x => (Except.ok (f x) : Except ε β)) = .ok (l.map f) := by
  induction l with
  | nil => rfl
  | cons a l ih =>
    rw [List.mapM_cons, ih]
    rfl

/-- For a valid TimeStamp every level of the assembly loop gets its level data. -/
theorem calcDivU_blocks_ok (bd : Build) (p : PeleLM) (is_init : ℤ) (a_time : TimeStamp)
    (ht : a_time = TimeStamp.AmrOldTime ∨ a_time = TimeStamp.AmrNewTime) :
    (List.range (p.finest_level + 1)).mapM (fun lev => do
      let _ldata_p ← getLevelDataPtr p lev a_time
      pure (calcDivU_RhoYdot bd p is_init a_time lev ++ [Call.assembleDivU lev (use_react p)]))
    = .ok ((List.range (p.finest_level + 1)).map (fun lev =>
        calcDivU_RhoYdot bd p is_init a_time lev ++ [Call.assembleDivU lev (use_react p)])) := by
  rcases ht with h | h <;> subst h
  · exact mapM_ok_eq_map _ _
  · exact mapM_ok_eq_map _ _

theorem calcDivU_ok (bd : Build) (p : PeleLM) (is_init computeDiff do_avgDown : ℤ)
    (a_time : TimeStamp)
    (ht : a_time = TimeStamp.AmrOldTime ∨ a_time = TimeStamp.AmrNewTime) :
    calcDivU bd p is_init computeDiff do_avgDown a_time = .ok
      ((if computeDiff ≠ 0 then
          [Call.calcDiffusivity a_time, Call.computeDifferentialDiffusionTerms a_time is_init]
        else [])
      ++ ((List.range (p.finest_level + 1)).map (fun lev =>
            calcDivU_RhoYdot bd p is_init a_time lev
              ++ [Call.assembleDivU lev (use_react p)])).flatten
      ++ (if do_avgDown ≠ 0 then calcDivU_avgDown bd p.finest_level else [])
      ++ (List.range (p.finest_level + 1)).map
            (fun lev => Call.fillpatch_divu lev p.m_nGrowdivu)) := by
  have hb := calcDivU_blocks_ok bd p is_init a_time ht
  rcases ht with h | h <;> subst h
  · simp only [calcDivU, AMREX_ASSERT, isOldOrNew, bind, Except.bind, pure, Except.pure] at hb ⊢
    rw [hb]
    rfl
  · simp only [calcDivU, AMREX_ASSERT, isOldOrNew, bind, Except.bind, pure, Except.pure] at hb ⊢
    rw [hb]
    rfl

theorem mem_RhoYdot_cases (bd : Build) (p : PeleLM) (is_init : ℤ) (a_time : TimeStamp)
    (lev : ℕ) (x : Call) (hx : x ∈ calcDivU_RhoYdot bd p is_init a_time lev) :
    x = Call.defineRhoYdot lev ∨ x = Call.copyI_R lev ∨ x = Call.setValZero lev ∨
      x = Call.computeInstantaneousReactionRate lev a_time ∨
      x = Call.computeInstantaneousReactionRateEF lev a_time := by
  unfold calcDivU_RhoYdot at hx
  split_ifs at hx <;> simp at hx <;> rcases hx with h | h <;> simp [h]

theorem mem_calcDivU_assemble (bd : Build) (p : PeleLM) (is_init : ℤ) (a_time : TimeStamp)
    (x : Call)
    (hx : x ∈ ((List.range (p.finest_level + 1)).map (fun lev =>
            calcDivU_RhoYdot bd p is_init a_time lev
              ++ [Call.assembleDivU lev (use_react p)])).flatten) :
    ∃ lev, x = Call.defineRhoYdot lev ∨ x = Call.copyI_R lev ∨ x = Call.setValZero lev ∨
      x = Call.computeInstantaneousReactionRate lev a_time ∨
      x = Call.computeInstantaneousReactionRateEF lev a_time ∨
      x = Call.assembleDivU lev (use_react p) := by
  simp only [List.mem_flatten, List.mem_map, List.mem_range] at hx
  obtain ⟨l, ⟨lev, -, rfl⟩, hx⟩ := hx
  rcases List.mem_append.mp hx with h | h
  · rcases mem_RhoYdot_cases bd p is_init a_time lev x h with h | h | h | h | h
    · exact ⟨lev, Or.inl h⟩
    · exact ⟨lev, Or.inr (Or.inl h)⟩
    · exact ⟨lev, Or.inr (Or.inr (Or.inl h))⟩
    · exact ⟨lev, Or.inr (Or.inr (Or.inr (Or.inl h)))⟩
    · exact ⟨lev, Or.inr (Or.inr (Or.inr (Or.inr (Or.inl h))))⟩
  · exact ⟨lev, Or.inr (Or.inr (Or.inr (Or.inr (Or.inr (List.mem_singleton.mp h)))))⟩

theorem mem_calcDivU_diff (is_init computeDiff : ℤ) (a_time : TimeStamp) (x : Call)
    (hx : x ∈ (if computeDiff ≠ 0 then
          [Call.calcDiffusivity a_time, Call.computeDifferentialDiffusionTerms a_time is_init]
        else [])) :
    x = Call.calcDiffusivity a_time ∨ x = Call.computeDifferentialDiffusionTerms a_time is_init := by
  split_ifs at hx
  · simpa using hx
  · simp at hx

/-- C10 counterexample: on the two-level chamber, called with is_init = 0,
computeDiff = 0 and do_avgDown = 0, calcDivU makes no average-down call but
still fills the ghost cells of divU on both levels. -/
theorem calcDivU_fill_not_skippable :
    calcDivU build2d chamber2 0 0 0 TimeStamp.AmrNewTime = .ok
      [Call.defineRhoYdot 0, Call.computeInstantaneousReactionRate 0 TimeStamp.AmrNewTime,
       Call.assembleDivU 0 1,
       Call.defineRhoYdot 1, Call.computeInstantaneousReactionRate 1 TimeStamp.AmrNewTime,
       Call.assembleDivU 1 1,
       Call.fillpatch_divu 0 1, Call.fillpatch_divu 1 1] := by
  rfl

/-- C10 (amended): for a valid TimeStamp calcDivU returns; an average-down from
level crse+1 to level crse is made if and only if do_avgDown is non-zero and
crse+1 is at most finest_level; the ghost-cell fill of divU is made on every
level 0..finest_level with width m_nGrowdivu whatever the caller flags are. -/
theorem calcDivU_avgDown_flag_fill_always (bd : Build) (p : PeleLM)
    (is_init computeDiff do_avgDown : ℤ) (a_time : TimeStamp)
    (ht : a_time = TimeStamp.AmrOldTime ∨ a_time = TimeStamp.AmrNewTime) :
    ∃ tr, calcDivU bd p is_init computeDiff do_avgDown a_time = .ok tr ∧
      (∀ fine crse r,
        (Call.average_down fine crse r ∈ tr ∨ Call.EB_average_down fine crse r ∈ tr) ↔
          (do_avgDown ≠ 0 ∧ fine = crse + 1 ∧ r = crse ∧ fine ≤ p.finest_level)) ∧
      (∀ lev n, Call.fillpatch_divu lev n ∈ tr ↔ (lev ≤ p.finest_level ∧ n = p.m_nGrowdivu)) := by
  refine ⟨_, calcDivU_ok bd p is_init computeDiff do_avgDown a_time ht, ?_, ?_⟩
  · intro fine crse r
    simp only [List.mem_append, List.mem_map, List.mem_range]
    constructor
    · rintro (h | h)
      · rcases h with ((h | h) | h) | h
        · rcases mem_calcDivU_diff _ _ _ _ h with h | h <;> cases h
        · obtain ⟨lev, h⟩ := mem_calcDivU_assemble _ _ _ _ _ h
          rcases h with h | h | h | h | h | h <;> cases h
        · split_ifs at h with hd
          · obtain ⟨c, hc, h⟩ := (mem_calcDivU_avgDown bd _ _).mp h
            split_ifs at h
            cases h
            exact ⟨hd, rfl, rfl, hc⟩
          · simp at h
        · obtain ⟨lev, -, h⟩ := h; cases h
      · rcases h with ((h | h) | h) | h
        · rcases mem_calcDivU_diff _ _ _ _ h with h | h <;> cases h
        · obtain ⟨lev, h⟩ := mem_calcDivU_assemble _ _ _ _ _ h
          rcases h with h | h | h | h | h | h <;> cases h
        · split_ifs at h with hd
          · obtain ⟨c, hc, h⟩ := (mem_calcDivU_avgDown bd _ _).mp h
            split_ifs at h
            cases h
            exact ⟨hd, rfl, rfl, hc⟩
          · simp at h
        · obtain ⟨lev, -, h⟩ := h; cases h
    · rintro ⟨hd, rfl, rfl, hle⟩
      by_cases hEB : bd.AMREX_USE_EB = true
      · refine Or.inr (Or.inl (Or.inr ?_))
        rw [if_pos hd, mem_calcDivU_avgDown]
        exact ⟨r, hle, by rw [if_pos hEB]⟩
      · refine Or.inl (Or.inl (Or.inr ?_))
        rw [if_pos hd, mem_calcDivU_avgDown]
        exact ⟨r, hle, by rw [if_neg hEB]⟩
  · intro lev n
    simp only [List.mem_append, List.mem_map, List.mem_range]
    constructor
    · rintro (((h | h) | h) | h)
      · rcases mem_calcDivU_diff _ _ _ _ h with h | h <;> cases h
      · obtain ⟨l, h⟩ := mem_calcDivU_assemble _ _ _ _ _ h
        rcases h with h | h | h | h | h | h <;> cases h
      · split_ifs at h with hd
        · obtain ⟨c, hc, h⟩ := (mem_calcDivU_avgDown bd _ _).mp h
          split_ifs at h
        · simp at h
      · obtain ⟨l, hl, h⟩ := h
        cases h
        exact ⟨Nat.lt_succ_iff.mp hl, rfl⟩
    · rintro ⟨hle, rfl⟩
      exact Or.inr ⟨lev, Nat.lt_succ_of_le hle, rfl⟩

/-- C10 witness: new-time call on the two-level chamber with do_avgDown = 1:
the average-down from level 1 to level 0 is made and both levels are filled. -/
theorem calcDivU_avgDown_flag_fill_always_witness :
    (TimeStamp.AmrNewTime = TimeStamp.AmrOldTime ∨ TimeStamp.AmrNewTime = TimeStamp.AmrNewTime) ∧
    ∃ tr, calcDivU build2d chamber2 0 0 1 TimeStamp.AmrNewTime = .ok tr ∧
      Call.EB_average_down 1 0 0 ∈ tr ∧
      Call.fillpatch_divu 0 chamber2.m_nGrowdivu ∈ tr ∧
      Call.fillpatch_divu 1 chamber2.m_nGrowdivu ∈ tr := by
  obtain ⟨tr, htr, havg, hfill⟩ :=
    calcDivU_avgDown_flag_fill_always build2d chamber2 0 0 1 TimeStamp.AmrNewTime (Or.inr rfl)
  refine ⟨Or.inr rfl, tr, htr, ?_, (hfill 0 _).mpr ⟨Nat.zero_le _, rfl⟩,
    (hfill 1 _).mpr ⟨Nat.le_refl _, rfl⟩⟩
  have h := (havg 1 0 0).mpr ⟨by decide, rfl, rfl, Nat.le_refl _⟩
  rcases h with h | h
  · exfalso
    rw [show calcDivU build2d chamber2 0 0 1 TimeStamp.AmrNewTime = .ok
      [Call.defineRhoYdot 0, Call.computeInstantaneousReactionRate 0 TimeStamp.AmrNewTime,
       Call.assembleDivU 0 1,
       Call.defineRhoYdot 1, Call.computeInstantaneousReactionRate 1 TimeStamp.AmrNewTime,
       Call.assembleDivU 1 1, Call.EB_average_down 1 0 0,
       Call.fillpatch_divu 0 1, Call.fillpatch_divu 1 1] from rfl] at htr
    cases htr
    simp at h
  · exact h

/-! ## TimeStamp guard -/

theorem mem_calcDivU_trace (bd : Build) (p : PeleLM) (is_init computeDiff do_avgDown : ℤ)
    (a_time : TimeStamp) (x : Call) :
    x ∈ ((if computeDiff ≠ 0 then
          [Call.calcDiffusivity a_time, Call.computeDifferentialDiffusionTerms a_time is_init]
        else [])
      ++ ((List.range (p.finest_level + 1)).map (fun lev =>
            calcDivU_RhoYdot bd p is_init a_time lev
              ++ [Call.assembleDivU lev (use_react p)])).flatten
      ++ (if do_avgDown ≠ 0 then calcDivU_avgDown bd p.finest_level else [])
      ++ (List.range (p.finest_level + 1)).map
            (fun lev => Call.fillpatch_divu lev p.m_nGrowdivu)) ↔
    (computeDiff ≠ 0 ∧ (x = Call.calcDiffusivity a_time ∨
        x = Call.computeDifferentialDiffusionTerms a_time is_init)) ∨
    (∃ lev, lev ≤ p.finest_level ∧
        (x ∈ calcDivU_RhoYdot bd p is_init a_time lev ∨ x = Call.assembleDivU lev (use_react p))) ∨
    (do_avgDown ≠ 0 ∧ ∃ crse, crse < p.finest_level ∧
        x = (if bd.AMREX_USE_EB = true then Call.EB_average_down (crse + 1) crse crse
              else Call.average_down (crse + 1) crse crse)) ∨
    (∃ lev, lev ≤ p.finest_level ∧ x = Call.fillpatch_divu lev p.m_nGrowdivu) := by
  simp only [List.mem_append, List.mem_flatten, List.mem_map, List.mem_range, Nat.lt_succ_iff]
  constructor
  · rintro (((h | ⟨l, ⟨lev, hlev, rfl⟩, h⟩) | h) | ⟨lev, hlev, rfl⟩)
    · split_ifs at h with hd
      · exact Or.inl ⟨hd, by simpa using h⟩
      · simp at h
    · refine Or.inr (Or.inl ⟨lev, hlev, ?_⟩)
      simpa using h
    · split_ifs at h with hd
      · exact Or.inr (Or.inr (Or.inl ⟨hd, (mem_calcDivU_avgDown bd _ _).mp h⟩))
      · simp at h
    · exact Or.inr (Or.inr (Or.inr ⟨lev, hlev, rfl⟩))
  · rintro (⟨hd, h⟩ | ⟨lev, hlev, h⟩ | ⟨hd, h⟩ | ⟨lev, hlev, rfl⟩)
    · refine Or.inl (Or.inl (Or.inl ?_))
      rw [if_pos hd]; simpa using h
    · refine Or.inl (Or.inl (Or.inr ⟨_, ⟨lev, hlev, rfl⟩, ?_⟩))
      simpa using h
    · refine Or.inl (Or.inr ?_)
      rw [if_pos hd]; exact (mem_calcDivU_avgDown bd _ _).mpr h
    · exact Or.inr ⟨lev, hlev, rfl⟩

theorem RhoYdot_define_mem (bd : Build) (p : PeleLM) (is_init : ℤ) (a_time : TimeStamp)
    (lev l : ℕ) :
    Call.defineRhoYdot l ∈ calcDivU_RhoYdot bd p is_init a_time lev ↔
      l = lev ∧ (p.m_do_react ≠ 0 ∧ p.m_skipInstantRR = 0) := by
  unfold calcDivU_RhoYdot
  split_ifs <;> simp_all

theorem RhoYdot_copy_mem (bd : Build) (p : PeleLM) (is_init : ℤ) (a_time : TimeStamp)
    (lev l : ℕ) :
    Call.copyI_R l ∈ calcDivU_RhoYdot bd p is_init a_time lev ↔
      l = lev ∧ (p.m_do_react ≠ 0 ∧ p.m_skipInstantRR = 0) ∧ is_init ≠ 0 ∧ p.m_dt > 0 := by
  unfold calcDivU_RhoYdot
  split_ifs <;> simp_all

theorem RhoYdot_zero_mem (bd : Build) (p : PeleLM) (is_init : ℤ) (a_time : TimeStamp)
    (lev l : ℕ) :
    Call.setValZero l ∈ calcDivU_RhoYdot bd p is_init a_time lev ↔
      l = lev ∧ (p.m_do_react ≠ 0 ∧ p.m_skipInstantRR = 0) ∧ is_init ≠ 0 ∧ ¬ p.m_dt > 0 := by
  unfold calcDivU_RhoYdot
  split_ifs <;> simp_all

theorem RhoYdot_instant_mem (bd : Build) (p : PeleLM) (is_init : ℤ) (a_time t : TimeStamp)
    (lev l : ℕ) :
    (Call.computeInstantaneousReactionRate l t ∈ calcDivU_RhoYdot bd p is_init a_time lev ∨
      Call.computeInstantaneousReactionRateEF l t ∈ calcDivU_RhoYdot bd p is_init a_time lev) ↔
      l = lev ∧ (p.m_do_react ≠ 0 ∧ p.m_skipInstantRR = 0) ∧ is_init = 0 ∧ t = a_time := by
  unfold calcDivU_RhoYdot
  split_ifs <;> simp_all

theorem use_react_eq_one_iff (p : PeleLM) :
    use_react p = 1 ↔ (p.m_do_react ≠ 0 ∧ p.m_skipInstantRR = 0) := by
  unfold use_react
  split_ifs with h <;> simp [h]

theorem use_react_eq_zero_iff (p : PeleLM) :
    use_react p = 0 ↔ ¬ (p.m_do_react ≠ 0 ∧ p.m_skipInstantRR = 0) := by
  unfold use_react
  split_ifs with h <;> simp [h]

theorem calcDivU_block_infix (bd : Build) (p : PeleLM) (is_init computeDiff do_avgDown : ℤ)
    (a_time : TimeStamp) (lev : ℕ) (hlev : lev ≤ p.finest_level) :
    (calcDivU_RhoYdot bd p is_init a_time lev ++ [Call.assembleDivU lev (use_react p)]) <:+:
    ((if computeDiff ≠ 0 then
          [Call.calcDiffusivity a_time, Call.computeDifferentialDiffusionTerms a_time is_init]
        else [])
      ++ ((List.range (p.finest_level + 1)).map (fun lev =>
            calcDivU_RhoYdot bd p is_init a_time lev
              ++ [Call.assembleDivU lev (use_react p)])).flatten
      ++ (if do_avgDown ≠ 0 then calcDivU_avgDown bd p.finest_level else [])
      ++ (List.range (p.finest_level + 1)).map
            (fun lev => Call.fillpatch_divu lev p.m_nGrowdivu)) := by
  have h1 : (calcDivU_RhoYdot bd p is_init a_time lev ++ [Call.assembleDivU lev (use_react p)])
      <:+: ((List.range (p.finest_level + 1)).map (fun lev =>
            calcDivU_RhoYdot bd p is_init a_time lev
              ++ [Call.assembleDivU lev (use_react p)])).flatten :=
    List.infix_of_mem_flatten
      (List.mem_map.mpr ⟨lev, List.mem_range.mpr (Nat.lt_succ_of_le hlev), rfl⟩)
  refine h1.trans ?_
  rw [List.append_assoc, List.append_assoc]
  exact List.infix_append' _ _ _

theorem RhoYdot_EF_flag (bd : Build) (p : PeleLM) (is_init : ℤ) (a_time t : TimeStamp)
    (lev l : ℕ)
    (h : Call.computeInstantaneousReactionRateEF l t ∈ calcDivU_RhoYdot bd p is_init a_time lev) :
    bd.PELE_USE_EFIELD = true := by
  unfold calcDivU_RhoYdot at h
  split_ifs at h <;> simp_all

theorem RhoYdot_noEF_flag (bd : Build) (p : PeleLM) (is_init : ℤ) (a_time t : TimeStamp)
    (lev l : ℕ)
    (h : Call.computeInstantaneousReactionRate l t ∈ calcDivU_RhoYdot bd p is_init a_time lev) :
    bd.PELE_USE_EFIELD = false := by
  unfold calcDivU_RhoYdot at h
  split_ifs at h <;> simp_all

/-- Membership of a call that only the RhoYdot construction can make. -/
theorem mem_trace_reaction (bd : Build) (p : PeleLM) (is_init computeDiff do_avgDown : ℤ)
    (a_time : TimeStamp) (x : Call)
    (h1 : ∀ t i, x ≠ Call.calcDiffusivity t ∧ x ≠ Call.computeDifferentialDiffusionTerms t i)
    (h2 : ∀ l u, x ≠ Call.assembleDivU l u)
    (h3 : ∀ a b c, x ≠ Call.average_down a b c ∧ x ≠ Call.EB_average_down a b c)
    (h4 : ∀ l n, x ≠ Call.fillpatch_divu l n) :
    x ∈ ((if computeDiff ≠ 0 then
          [Call.calcDiffusivity a_time, Call.computeDifferentialDiffusionTerms a_time is_init]
        else [])
      ++ ((List.range (p.finest_level + 1)).map (fun lev =>
            calcDivU_RhoYdot bd p is_init a_time lev
              ++ [Call.assembleDivU lev (use_react p)])).flatten
      ++ (if do_avgDown ≠ 0 then calcDivU_avgDown bd p.finest_level else [])
      ++ (List.range (p.finest_level + 1)).map
            (fun lev => Call.fillpatch_divu lev p.m_nGrowdivu)) ↔
    ∃ lev, lev ≤ p.finest_level ∧ x ∈ calcDivU_RhoYdot bd p is_init a_time lev := by
  rw [mem_calcDivU_trace]
  constructor
  · rintro (⟨-, h | h⟩ | ⟨l, hl, h | h⟩ | ⟨-, c, -, h⟩ | ⟨l, -, h⟩)
    · exact absurd h (h1 a_time 0).1
    · exact absurd h (h1 _ _).2
    · exact ⟨l, hl, h⟩
    · exact absurd h (h2 _ _)
    · split_ifs at h
      · exact absurd h (h3 _ _ _).2
      · exact absurd h (h3 _ _ _).1
    · exact absurd h (h4 _ _)
  · rintro ⟨l, hl, h⟩
    exact Or.inr (Or.inl ⟨l, hl, Or.inl h⟩)

/-- C12: use_react is 1 exactly when m_do_react != 0 and m_skipInstantRR == 0
(else 0), and the array r handed to compute_divu is RhoYdot exactly then. For a
valid TimeStamp calcDivU returns, and on each level 0..finest_level the
reaction-rate calls immediately precede the assembly of that level with this
use_react: RhoYdot is defined exactly when reactions take part; it is a copy of
I_R exactly when moreover is_init != 0 and dt > 0, it is set to zero exactly
when is_init != 0 and not dt > 0, and the instantaneous rate is computed, at the
TimeStamp of the call, exactly when is_init == 0; when reactions do not take
part no reaction call is made. -/
theorem calcDivU_reaction_selection (bd : Build) (p : PeleLM)
    (is_init computeDiff do_avgDown : ℤ) (a_time : TimeStamp)
    (ht : a_time = TimeStamp.AmrOldTime ∨ a_time = TimeStamp.AmrNewTime) :
    (use_react p = 1 ↔ (p.m_do_react ≠ 0 ∧ p.m_skipInstantRR = 0)) ∧
    (use_react p = 0 ↔ ¬ (p.m_do_react ≠ 0 ∧ p.m_skipInstantRR = 0)) ∧
    (calcDivU_r p = RSource.RhoYdot ↔ use_react p = 1) ∧
    ∃ tr, calcDivU bd p is_init computeDiff do_avgDown a_time = .ok tr ∧
      (∀ lev, lev ≤ p.finest_level →
        (calcDivU_RhoYdot bd p is_init a_time lev ++ [Call.assembleDivU lev (use_react p)])
          <:+: tr) ∧
      (∀ lev u, Call.assembleDivU lev u ∈ tr ↔ (lev ≤ p.finest_level ∧ u = use_react p)) ∧
      (∀ lev, Call.defineRhoYdot lev ∈ tr ↔ (lev ≤ p.finest_level ∧ use_react p = 1)) ∧
      (∀ lev, Call.copyI_R lev ∈ tr ↔
        (lev ≤ p.finest_level ∧ use_react p = 1 ∧ is_init ≠ 0 ∧ p.m_dt > 0)) ∧
      (∀ lev, Call.setValZero lev ∈ tr ↔
        (lev ≤ p.finest_level ∧ use_react p = 1 ∧ is_init ≠ 0 ∧ ¬ p.m_dt > 0)) ∧
      (∀ lev t, (Call.computeInstantaneousReactionRate lev t ∈ tr ∨
          Call.computeInstantaneousReactionRateEF lev t ∈ tr) ↔
        (lev ≤ p.finest_level ∧ use_react p = 1 ∧ is_init = 0 ∧ t = a_time)) ∧
      (∀ lev t, Call.computeInstantaneousReactionRateEF lev t ∈ tr →
        bd.PELE_USE_EFIELD = true) ∧
      (∀ lev t, Call.computeInstantaneousReactionRate lev t ∈ tr →
        bd.PELE_USE_EFIELD = false) := by
  refine ⟨use_react_eq_one_iff p, use_react_eq_zero_iff p, ?_, _,
    calcDivU_ok bd p is_init computeDiff do_avgDown a_time ht,
    fun lev hlev => calcDivU_block_infix bd p is_init computeDiff do_avgDown a_time lev hlev,
    ?_, ?_, ?_, ?_, ?_, ?_, ?_⟩
  · rw [use_react_eq_one_iff]
    unfold calcDivU_r
    split_ifs with h <;> simp [h]
  · intro lev u
    rw [mem_calcDivU_trace]
    constructor
    · rintro (⟨-, h | h⟩ | ⟨l, hl, h | h⟩ | ⟨-, c, -, h⟩ | ⟨l, -, h⟩)
      · cases h
      · cases h
      · rcases mem_RhoYdot_cases _ _ _ _ _ _ h with h | h | h | h | h <;> cases h
      · cases h; exact ⟨hl, rfl⟩
      · split_ifs at h
      · cases h
    · rintro ⟨hl, rfl⟩
      exact Or.inr (Or.inl ⟨lev, hl, Or.inr rfl⟩)
  · intro lev
    rw [mem_trace_reaction _ _ _ _ _ _ _ (by simp) (by simp) (by simp) (by simp),
      use_react_eq_one_iff]
    constructor
    · rintro ⟨l, hl, h⟩
      obtain ⟨rfl, hP⟩ := (RhoYdot_define_mem _ _ _ _ _ _).mp h
      exact ⟨hl, hP⟩
    · rintro ⟨hl, hP⟩
      exact ⟨lev, hl, (RhoYdot_define_mem _ _ _ _ _ _).mpr ⟨rfl, hP⟩⟩
  · intro lev
    rw [mem_trace_reaction _ _ _ _ _ _ _ (by simp) (by simp) (by simp) (by simp),
      use_react_eq_one_iff]
    constructor
    · rintro ⟨l, hl, h⟩
      obtain ⟨rfl, hP⟩ := (RhoYdot_copy_mem _ _ _ _ _ _).mp h
      exact ⟨hl, hP⟩
    · rintro ⟨hl, hP⟩
      exact ⟨lev, hl, (RhoYdot_copy_mem _ _ _ _ _ _).mpr ⟨rfl, hP⟩⟩
  · intro lev
    rw [mem_trace_reaction _ _ _ _ _ _ _ (by simp) (by simp) (by simp) (by simp),
      use_react_eq_one_iff]
    constructor
    · rintro ⟨l, hl, h⟩
      obtain ⟨rfl, hP⟩ := (RhoYdot_zero_mem _ _ _ _ _ _).mp h
      exact ⟨hl, hP⟩
    · rintro ⟨hl, hP⟩
      exact ⟨lev, hl, (RhoYdot_zero_mem _ _ _ _ _ _).mpr ⟨rfl, hP⟩⟩
  · intro lev t
    rw [mem_trace_reaction _ _ _ _ _ _ _ (by simp) (by simp) (by simp) (by simp),
      mem_trace_reaction _ _ _ _ _ _ _ (by simp) (by simp) (by simp) (by simp),
      use_react_eq_one_iff]
    constructor
    · rintro (⟨l, hl, h⟩ | ⟨l, hl, h⟩)
      · obtain ⟨rfl, hP⟩ := (RhoYdot_instant_mem _ _ _ _ _ _ _).mp (Or.inl h)
        exact ⟨hl, hP⟩
      · obtain ⟨rfl, hP⟩ := (RhoYdot_instant_mem _ _ _ _ _ _ _).mp (Or.inr h)
        exact ⟨hl, hP⟩
    · rintro ⟨hl, hP⟩
      rcases (RhoYdot_instant_mem bd p is_init a_time t lev lev).mpr ⟨rfl, hP⟩ with h | h
      · exact Or.inl ⟨lev, hl, h⟩
      · exact Or.inr ⟨lev, hl, h⟩
  · intro lev t h
    rw [mem_trace_reaction _ _ _ _ _ _ _ (by simp) (by simp) (by simp) (by simp)] at h
    obtain ⟨l, -, h⟩ := h
    exact RhoYdot_EF_flag _ _ _ _ _ _ _ h
  · intro lev t h
    rw [mem_trace_reaction _ _ _ _ _ _ _ (by simp) (by simp) (by simp) (by simp)] at h
    obtain ⟨l, -, h⟩ := h
    exact RhoYdot_noEF_flag _ _ _ _ _ _ _ h

/-- C12 witness: an initial call (is_init = 1) on the two-level chamber, where
reactions are on and dt = 1/10 > 0: RhoYdot of level 1 is a copy of I_R and the
level is assembled with use_react = 1. -/
theorem calcDivU_reaction_selection_witness :
    (TimeStamp.AmrNewTime = TimeStamp.AmrOldTime ∨ TimeStamp.AmrNewTime = TimeStamp.AmrNewTime) ∧
    use_react chamber2 = 1 ∧
    ∃ tr, calcDivU build2d chamber2 1 0 0 TimeStamp.AmrNewTime = .ok tr ∧
      Call.copyI_R 1 ∈ tr ∧ Call.assembleDivU 1 1 ∈ tr ∧ Call.setValZero 1 ∉ tr := by
  obtain ⟨hu, -, -, tr, htr, -, hasm, -, hcopy, hzero, -⟩ :=
    calcDivU_reaction_selection build2d chamber2 1 0 0 TimeStamp.AmrNewTime (Or.inr rfl)
  have h1 : use_react chamber2 = 1 := hu.mpr ⟨by decide, rfl⟩
  have hdt : chamber2.m_dt > 0 := by norm_num [chamber2]
  refine ⟨Or.inr rfl, h1, tr, htr, (hcopy 1).mpr ⟨Nat.le_refl _, h1, by decide, hdt⟩,
    (hasm 1 1).mpr ⟨Nat.le_refl _, h1.symm⟩, ?_⟩
  intro h
  exact ((hzero 1).mp h).2.2.2 hdt

/-! ## calcDivU: order of the coarsening steps -/

theorem calcDivU_avgDown_length (bd : Build) (L : ℕ) : (calcDivU_avgDown bd L).length = L := by
  induction L with
  | zero => rfl
  | succ L ih => rw [calcDivU_avgDown, List.length_cons, ih]

theorem calcDivU_avgDown_get (bd : Build) (L i : ℕ) (hi : i < L) :
    (calcDivU_avgDown bd L)[i]? = some (coarseningStep bd (L - i)) := by
  induction L generalizing i with
  | zero => exact absurd hi (Nat.not_lt_zero _)
  | succ L ih =>
    rw [calcDivU_avgDown]
    cases i with
    | zero => simp [coarseningStep]
    | succ j =>
      rw [List.getElem?_cons_succ, ih j (Nat.lt_of_succ_lt_succ hi), Nat.succ_sub_succ]

theorem calcDivU_avgDown_all (bd : Build) (L : ℕ) :
    ∀ x ∈ calcDivU_avgDown bd L, x.isAverageDown = true := by
  intro x hx
  obtain ⟨c, -, rfl⟩ := (mem_calcDivU_avgDown bd L x).mp hx
  split_ifs <;> rfl

/-- C13: for a valid TimeStamp and do_avgDown != 0 the calls of calcDivU split
into a first part that makes no coarsening call and assembles divU on every
level 0..finest_level, then exactly finest_level coarsening calls, the i-th
(from 0) having fine level finest_level - i, coarse level and ratio level one
below, then a last part that makes no coarsening call. Hence the call reading
level lev as fine data comes after the call writing it as coarse data, and
with finest_level = 0 there is no coarsening call. -/
theorem calcDivU_avgDown_descending (bd : Build) (p : PeleLM)
    (is_init computeDiff do_avgDown : ℤ) (a_time : TimeStamp)
    (ht : a_time = TimeStamp.AmrOldTime ∨ a_time = TimeStamp.AmrNewTime)
    (hd : do_avgDown ≠ 0) :
    ∃ pre steps post,
      calcDivU bd p is_init computeDiff do_avgDown a_time = .ok (pre ++ steps ++ post) ∧
      steps.length = p.finest_level ∧
      (∀ i, i < p.finest_level → steps[i]? = some (coarseningStep bd (p.finest_level - i))) ∧
      (∀ lev, 1 ≤ lev → lev < p.finest_level → ∃ i j : ℕ, i < j ∧
        steps[i]? = some (coarseningStep bd (lev + 1)) ∧
        steps[j]? = some (coarseningStep bd lev)) ∧
      (∀ lev, lev ≤ p.finest_level → Call.assembleDivU lev (use_react p) ∈ pre) ∧
      (∀ x ∈ pre, x.isAverageDown = false) ∧
      (∀ x ∈ steps, x.isAverageDown = true) ∧
      (∀ x ∈ post, x.isAverageDown = false) ∧
      (p.finest_level = 0 → steps = []) := by
  refine ⟨(if computeDiff ≠ 0 then
          [Call.calcDiffusivity a_time, Call.computeDifferentialDiffusionTerms a_time is_init]
        else [])
      ++ ((List.range (p.finest_level + 1)).map (fun lev =>
            calcDivU_RhoYdot bd p is_init a_time lev
              ++ [Call.assembleDivU lev (use_react p)])).flatten,
    calcDivU_avgDown bd p.finest_level,
    (List.range (p.finest_level + 1)).map (fun lev => Call.fillpatch_divu lev p.m_nGrowdivu),
    ?_, calcDivU_avgDown_length bd _, fun i hi => calcDivU_avgDown_get bd _ i hi, ?_, ?_, ?_,
    calcDivU_avgDown_all bd _, ?_, ?_⟩
  · rw [calcDivU_ok bd p is_init computeDiff do_avgDown a_time ht, if_pos hd]
  · intro lev h1 hlt
    refine ⟨p.finest_level - (lev + 1), p.finest_level - lev, by omega, ?_, ?_⟩
    · rw [calcDivU_avgDown_get bd _ _ (by omega)]
      congr 2; omega
    · rw [calcDivU_avgDown_get bd _ _ (by omega)]
      congr 2; omega
  · intro lev hlev
    refine List.mem_append_right _ ?_
    simp only [List.mem_flatten, List.mem_map, List.mem_range]
    exact ⟨_, ⟨lev, Nat.lt_succ_of_le hlev, rfl⟩, by simp⟩
  · intro x hx
    rcases List.mem_append.mp hx with h | h
    · rcases mem_calcDivU_diff _ _ _ _ h with h | h <;> subst h <;> rfl
    · obtain ⟨lev, h⟩ := mem_calcDivU_assemble _ _ _ _ _ h
      rcases h with h | h | h | h | h | h <;> subst h <;> rfl
  · intro x hx
    obtain ⟨lev, -, rfl⟩ := List.mem_map.mp hx
    rfl
  · intro h0
    rw [h0]; rfl

/-- C13 witness: three levels, do_avgDown = 1: two coarsening calls, first
from level 2 to level 1, then from level 1 to level 0. -/
theorem calcDivU_avgDown_descending_witness :
    (TimeStamp.AmrNewTime = TimeStamp.AmrOldTime ∨ TimeStamp.AmrNewTime = TimeStamp.AmrNewTime) ∧
    (1 : ℤ) ≠ 0 ∧
    ∃ pre steps post,
      calcDivU build2d chamber3 0 0 1 TimeStamp.AmrNewTime = .ok (pre ++ steps ++ post) ∧
      steps.length = 2 ∧
      steps[0]? = some (Call.EB_average_down 2 1 1) ∧
      steps[1]? = some (Call.EB_average_down 1 0 0) ∧
      Call.assembleDivU 2 1 ∈ pre := by
  obtain ⟨pre, steps, post, htr, hlen, hget, -, hasm, -⟩ :=
    calcDivU_avgDown_descending build2d chamber3 0 0 1 TimeStamp.AmrNewTime (Or.inr rfl)
      (by decide)
  refine ⟨Or.inr rfl, by decide, pre, steps, post, htr, hlen, ?_, ?_, ?_⟩
  · rw [hget 0 (by decide)]; rfl
  · rw [hget 1 (by decide)]; rfl
  · exact hasm 2 (Nat.le_refl _)

/-! ## Closed-chamber corrector: closed form -/

/-- C14: for every input with non-zero Thetabar, each valid cell of mac_divu
after adjustPandDivU is its value before the call minus theta * dp0dt, where
theta = 0.5*(gammaInv_old/pOld + gammaInv_new/pNew) is the uncentered half-time
theta of the cell, taken with the ambient pressures before the update, and
dp0dt = (Sbar - divu_vol)/Thetabar is the recorded m_dp0dt. -/
theorem adjustPandDivU_closed_form (bd : Build) (g : GammaInvKernel) (p : PeleLM)
    (mac_divu : ℕ → amrex.MultiFab) (hT : Thetabar bd g p ≠ 0)
    (lev : ℕ) (hlev : lev ≤ p.finest_level) (c : amrex.IntVect) (hc : c ∈ p.grids lev) :
    (adjustPandDivU bd g p mac_divu).mac_divu lev c =
      mac_divu lev c
        - ThetaHalft bd g p lev c * (adjustPandDivU bd g p mac_divu).pele.m_dp0dt ∧
    ThetaHalft bd g p lev c =
      0.5 * (g c ((p.m_leveldata_old lev).state.comp bd.FIRSTSPEC)
                ((p.m_leveldata_old lev).state.comp bd.TEMP) / p.m_pOld
            + g c ((p.m_leveldata_new lev).state.comp bd.FIRSTSPEC)
                ((p.m_leveldata_new lev).state.comp bd.TEMP) / p.m_pNew) ∧
    (adjustPandDivU bd g p mac_divu).pele.m_dp0dt =
      (Sbar p mac_divu - divu_vol bd p) / Thetabar bd g p := by
  refine ⟨?_, ?_, rfl⟩
  · rw [adjust_cell_closed bd g p mac_divu hT lev hlev c hc]
    show _ = mac_divu lev c
      - ThetaHalft bd g p lev c * ((Sbar p mac_divu - divu_vol bd p) / Thetabar bd g p)
    ring
  · simp only [ThetaHalft, amrex.ParallelFor, hlev, hc, if_true]

/-- C14 witness: fine cell (2,0,0) of the two-level chamber: theta = 1,
dp0dt = (2 - 1/2)/1 = 3/2, input 2, result 1/2. -/
theorem adjustPandDivU_closed_form_witness :
    Thetabar build2d gammaInvOne chamber2 ≠ 0 ∧ 1 ≤ chamber2.finest_level ∧
    ((2, 0, 0) : amrex.IntVect) ∈ chamber2.grids 1 ∧
    (adjustPandDivU build2d gammaInvOne chamber2 macDivu2).pele.m_dp0dt = 3 / 2 ∧
    (adjustPandDivU build2d gammaInvOne chamber2 macDivu2).mac_divu 1 (2, 0, 0) = 1 / 2 := by
  have hT : Thetabar build2d gammaInvOne chamber2 ≠ 0 := by rw [chamber2_Thetabar]; norm_num
  have hc : ((2, 0, 0) : amrex.IntVect) ∈ chamber2.grids 1 := by simp [chamber2]
  obtain ⟨h1, -, h3⟩ :=
    adjustPandDivU_closed_form build2d gammaInvOne chamber2 macDivu2 hT 1 (Nat.le_refl 1)
      (2, 0, 0) hc
  have hd : (adjustPandDivU build2d gammaInvOne chamber2 macDivu2).pele.m_dp0dt = 3 / 2 := by
    rw [h3, chamber2_Sbar, chamber2_divu_vol, chamber2_Thetabar]; norm_num
  refine ⟨hT, Nat.le_refl 1, hc, hd, ?_⟩
  rw [h1, hd, chamber2_theta 1 (Nat.le_refl 1) _ hc]
  simp [macDivu2]
  norm_num

end PeleLMeX
